import Mathlib

/-!
Verification of the ai-code-reviewer core pipeline against its source.

Shallow embedding of:
- `src/analysis/diff_parser.py` (`DiffParser._parse_unified_diff`),
- `src/analysis/engine.py` (`AnalysisEngine.analyze`, `_filter_relevant_findings`),
- `src/integrations/llm.py` (`LLMReviewer.review_diff`, `_parse_response`),
- `src/analysis/finding_schema.py` (`finding_to_normalized`, `infer_category`,
  including an executable MD5 over byte lists for the finding id),
- `src/queue/tasks.py` (`process_review_job`) with `src/integrations/git_ops.py`.

External effects (subprocess tool runs, the Anthropic API, git, Redis) are
passed in as explicit oracle values; invocations of external adapters are
recorded in an event list so that "stage X is never invoked" is a statement
about the produced trace.  Python `int` is modelled as `Int`, Python lists as
`List`, raised exceptions as `Except`.
-/

set_option maxRecDepth 100000

/-! ### Data model (`src/api/models.py`) -/

/-- `Severity` enum from `src/api/models.py`. -/
inductive Severity where
  | info
  | warning
  | error
deriving DecidableEq, Repr

/-- The string value of a `Severity` member (`Severity(str, Enum)`). -/
def severityValue : Severity → String
  | .info => "info"
  | .warning => "warning"
  | .error => "error"

/-- `Finding` model from `src/api/models.py`.  The `confidence` float field is
omitted (floating point, no claim depends on it). -/
structure Finding where
  tool_name : String
  rule_id : String
  severity : Severity
  file_path : String
  line : Int
  end_line : Option Int := none
  message : String
  suggestion : Option String := none
deriving DecidableEq, Repr

/-- `FindingSummary` model from `src/api/models.py`. -/
structure FindingSummary where
  rule_id : String
  severity : String
  message : String
  file_path : String
  line : Int
deriving DecidableEq, Repr

/-- `Finding.to_summary` from `src/api/models.py`. -/
def toSummary (f : Finding) : FindingSummary :=
  { rule_id := f.rule_id
    severity := severityValue f.severity
    message := f.message
    file_path := f.file_path
    line := f.line }

/-- `FileDiff` model from `src/analysis/diff_parser.py`. -/
structure FileDiff where
  file_path : String
  change_type : Char
  added_lines : List (Int × String) := []
  removed_lines : List (Int × String) := []
  new_content : Option String := none
deriving DecidableEq, Repr

instance {ε α : Type} [DecidableEq ε] [DecidableEq α] : DecidableEq (Except ε α) := fun x y =>
  match x, y with
  | .ok a, .ok b => if h : a = b then .isTrue (by rw [h]) else .isFalse (by simp [h])
  | .error a, .error b => if h : a = b then .isTrue (by rw [h]) else .isFalse (by simp [h])
  | .ok _, .error _ => .isFalse (by simp)
  | .error _, .ok _ => .isFalse (by simp)

/-! ### String primitives

Python string operations are modelled over `List Char` (the `data` of a
`String`) with structural recursion, so that every definition evaluates by
kernel reduction.  `String`'s own `splitOn`/`startsWith` use well-founded
recursion over byte offsets and do not reduce. -/

/-- Python `s.split(sep)` for a one-character separator: all fields kept,
empty fields included (`"a,,b".split(',') == ['a','','b']`, `"".split(',')
== ['']`). -/
def splitOnChar (sep : Char) : List Char → List (List Char)
  | [] => [[]]
  | c :: rest =>
      let r := splitOnChar sep rest
      if c = sep then [] :: r
      else
        match r with
        | h :: t => (c :: h) :: t
        | [] => [[c]]

/-- Python `s.startswith(pat)` over character lists. -/
def lstartsWith : List Char → List Char → Bool
  | [], _ => true
  | _ :: _, [] => false
  | p :: ps, c :: cs => p == c && lstartsWith ps cs

/-- Python `pat in s` (substring containment) over character lists. -/
def containsList : List Char → List Char → Bool
  | hay, pat =>
      lstartsWith pat hay ||
        match hay with
        | [] => false
        | _ :: t => containsList t pat

/-- Value of a nonempty all-digit character list, as Python `int` reads the
digits (most significant first). -/
def digitsVal (cs : List Char) : Nat :=
  cs.foldl (fun a c => a * 10 + (c.toNat - 48)) 0

/-- Python whitespace stripping (`int` strips surrounding whitespace). -/
def stripWs (cs : List Char) : List Char :=
  ((cs.dropWhile (·.isWhitespace)).reverse.dropWhile (·.isWhitespace)).reverse

/-- Python `int(s)` on a string of an optional sign followed by decimal
digits; `none` models `ValueError`.  (Python's underscore digit separators
and non-ASCII digits are not modelled; no input in this code base uses them.) -/
def pyInt (s : List Char) : Option Int :=
  match stripWs s with
  | [] => none
  | c :: rest =>
      if c = '-' then
        if rest ≠ [] ∧ rest.all (·.isDigit) then some (-(digitsVal rest : Int)) else none
      else if c = '+' then
        if rest ≠ [] ∧ rest.all (·.isDigit) then some (digitsVal rest : Int) else none
      else
        if (c :: rest).all (·.isDigit) then some (digitsVal (c :: rest) : Int) else none

/-- Parser state of `_parse_unified_diff`: the two cursors
(`current_old_line`, `current_new_line`) and the accumulated
`added` / `removed` lists. -/
structure ParseState where
  old : Int
  new : Int
  added : List (Int × String) := []
  removed : List (Int × String) := []
deriving DecidableEq, Repr

/-- `old_info = parts[1].lstrip('-')` and the `int(old_info.split(',')[0])`
operand of the header parse of `_parse_unified_diff`. -/
def oldTok (p1 : List Char) : List Char :=
  let old_info := p1.dropWhile (· = '-')
  if old_info.contains ',' then (splitOnChar ',' old_info).headD [] else old_info

/-- `new_info = parts[2].lstrip('+')` and the `int(new_info.split(',')[0])`
operand of the header parse. -/
def newTok (p2 : List Char) : List Char :=
  let new_info := p2.dropWhile (· = '+')
  if new_info.contains ',' then (splitOnChar ',' new_info).headD [] else new_info

/-- The hunk-header branch of `_parse_unified_diff` (the `line.startswith('@@')`
arm).  `parts[1]` / `parts[2]` out of range is an uncaught `IndexError`,
modelled as `.error ()`.  A `ValueError` from `int(...)` is caught by the
`except ValueError: continue`; note the assignment to `current_old_line`
happens before the one to `current_new_line`, so a `ValueError` on the new
start leaves the old cursor already updated. -/
def headerStep (st : ParseState) (line : List Char) : Except Unit ParseState :=
  let parts := splitOnChar ' ' line
  match parts.get? 1, parts.get? 2 with
  | some p1, some p2 =>
      match pyInt (oldTok p1) with
      | none => .ok st
      | some o =>
          match pyInt (newTok p2) with
          | none => .ok { st with old := o }
          | some n => .ok { st with old := o, new := n }
  | _, _ => .error ()

/-- One iteration of the `for line in lines` loop of `_parse_unified_diff`. -/
def parseStep (st : ParseState) (line : List Char) : Except Unit ParseState :=
  if lstartsWith ['@', '@'] line then
    headerStep st line
  else if lstartsWith ['+'] line && !lstartsWith ['+', '+', '+'] line then
    .ok { st with added := st.added ++ [(st.new, String.mk (line.drop 1))], new := st.new + 1 }
  else if lstartsWith ['-'] line && !lstartsWith ['-', '-', '-'] line then
    .ok { st with removed := st.removed ++ [(st.old, String.mk (line.drop 1))], old := st.old + 1 }
  else if !lstartsWith ['\\'] line then
    .ok { st with old := st.old + 1, new := st.new + 1 }
  else
    .ok st

/-- `DiffParser._parse_unified_diff`: split on newlines, run the loop,
return `(added, removed)`.  `.error ()` models an uncaught exception
escaping the call. -/
def parse_unified_diff (diff_text : String) :
    Except Unit (List (Int × String) × List (Int × String)) :=
  ((splitOnChar '\n' diff_text.data).foldlM parseStep { old := 0, new := 0 }).map
    (fun st => (st.added, st.removed))

/-! ### Relevance filter and analysis engine (`src/analysis/engine.py`)

External adapters are oracles: the semgrep/bandit outputs are input lists
(what `StaticAnalyzer.run_semgrep` / `run_bandit` returned), and the per-file
LLM call `LLMReviewer._analyze_file` is a function oracle that may raise.
Each adapter invocation is recorded as an `Event`, so "stage X is never
invoked" is a statement about the event trace. -/

/-- One external-adapter invocation performed by the pipeline. -/
inductive Event where
  | semgrepRun
  | banditRun
  | llmCall (file : String) (context : List Finding)
deriving DecidableEq, Repr

/-- The `changed_files = {d.file_path: d for d in diffs}` dict of
`_filter_relevant_findings`, followed by a key lookup: a later `FileDiff`
with the same path overwrites an earlier one. -/
def changedFileLookup (diffs : List FileDiff) (p : String) : Option FileDiff :=
  diffs.foldl (fun acc d => if d.file_path == p then some d else acc) none

/-- The per-finding relevance test of `_filter_relevant_findings`: the file
must be in the changed-file dict and the finding's line must equal the line
number of some `added_lines` entry of that file's diff. -/
def isRelevant (diffs : List FileDiff) (f : Finding) : Bool :=
  match changedFileLookup diffs f.file_path with
  | none => false
  | some d => d.added_lines.any (fun e => f.line == e.1)

/-- `AnalysisEngine._filter_relevant_findings`. -/
def filter_relevant_findings (findings : List Finding) (diffs : List FileDiff) :
    List Finding :=
  findings.filter (isRelevant diffs)

/-- Python truthiness of `diff.new_content` (`None` and `""` are falsy). -/
def blankContent : Option String → Bool
  | none => true
  | some s => s == ""

/-- The static-findings context passed to `_analyze_file` for one file:
`[f for f in static_findings if f.file_path == diff.file_path]`. -/
def fileContext (static_findings : List Finding) (d : FileDiff) : List Finding :=
  static_findings.filter (fun f => f.file_path == d.file_path)

/-- `LLMReviewer.review_diff` (the real-API path): iterate the diffs, skip
deleted files and files with neither content nor added lines, call the
per-file LLM oracle with the per-file static context, catch any per-file
exception (`.error`) and continue.  Returns the accumulated findings and the
trace of LLM invocations. -/
def review_diff (llm : FileDiff → List Finding → Except String (List Finding))
    (diffs : List FileDiff) (static_findings : List Finding) :
    List Finding × List Event :=
  match diffs with
  | [] => ([], [])
  | d :: rest =>
      let r := review_diff llm rest static_findings
      if d.change_type == 'D' then r
      else
        let ctx := fileContext static_findings d
        if blankContent d.new_content && d.added_lines.isEmpty then r
        else
          match llm d ctx with
          | .ok fs => (fs ++ r.1, .llmCall d.file_path ctx :: r.2)
          | .error _ => (r.1, .llmCall d.file_path ctx :: r.2)

/-- `AnalysisEngine.analyze`: mode-gated static stage (semgrep then bandit,
then the relevance filter) followed by the mode-gated LLM stage; in hybrid
mode the filtered static findings are handed to the LLM stage as context.
Returns the aggregated findings and the adapter-invocation trace. -/
def analyze (semgrep bandit : List Finding)
    (llm : FileDiff → List Finding → Except String (List Finding))
    (diffs : List FileDiff) (mode : String) : List Finding × List Event :=
  let staticPart :=
    if mode == "static_only" || mode == "hybrid" then
      (filter_relevant_findings (semgrep ++ bandit) diffs,
        [Event.semgrepRun, Event.banditRun])
    else ([], [])
  let llmPart :=
    if mode == "llm_only" || mode == "hybrid" then
      let context := if mode == "hybrid" then staticPart.1 else []
      review_diff llm diffs context
    else ([], [])
  (staticPart.1 ++ llmPart.1, staticPart.2 ++ llmPart.2)

/-! ### Category inference (`src/analysis/finding_schema.py`, `infer_category`) -/

/-- Category literal of `NormalizedFinding.category`. -/
inductive Category where
  | security
  | bug
  | style
  | performance
  | other
deriving DecidableEq, Repr

/-- ASCII lowercase of a string (Python `str.lower()`; the inputs here are
ASCII). -/
def pyLower (s : String) : String :=
  String.mk (s.data.map Char.toLower)

/-- Python `kw in s` on strings. -/
def strContains (hay kw : String) : Bool :=
  containsList hay.data kw.data

/-- `security_keywords` from `infer_category`. -/
def security_keywords : List String :=
  ["security", "vulnerability", "injection", "xss", "csrf", "auth",
   "password", "token", "secret", "crypto", "sql", "command",
   "hardcoded", "unsafe", "exploit"]

/-- `bug_keywords` from `infer_category`. -/
def bug_keywords : List String :=
  ["error", "exception", "null", "undefined", "race", "deadlock",
   "leak", "overflow", "underflow", "assert", "crash"]

/-- `style_keywords` from `infer_category`. -/
def style_keywords : List String :=
  ["style", "format", "lint", "convention", "naming", "whitespace",
   "complexity", "unused", "import"]

/-- `performance_keywords` from `infer_category`. -/
def performance_keywords : List String :=
  ["performance", "slow", "inefficient", "optimize", "cache",
   "memory", "cpu", "loop", "n+1", "query"]

/-- `any(kw in rule_lower or kw in message_lower for kw in kws)`. -/
def anyKeyword (rule_lower message_lower : String) (kws : List String) : Bool :=
  kws.any (fun kw => strContains rule_lower kw || strContains message_lower kw)

/-- `infer_category` from `src/analysis/finding_schema.py`. -/
def infer_category (rule_id tool_name message : String) : Category :=
  let rule_lower := pyLower rule_id
  let message_lower := pyLower message
  if tool_name == "semgrep" || tool_name == "bandit"
      || anyKeyword rule_lower message_lower security_keywords then
    .security
  else if anyKeyword rule_lower message_lower performance_keywords then
    .performance
  else if anyKeyword rule_lower message_lower style_keywords then
    .style
  else if anyKeyword rule_lower message_lower bug_keywords then
    .bug
  else
    .other

/-- Category inference as the spec words it: six rules tried in the fixed
priority order (security tools, security keywords, performance, style, bug,
other), first match wins, each keyword test a case-insensitive substring
match against rule id and message.  This is the spec-side definition for the
refinement claim; `infer_category` above is the code-side one. -/
def inferCategorySpec (rule_id tool_name message : String) : Category :=
  let kwHit := fun kws => anyKeyword (pyLower rule_id) (pyLower message) kws
  if tool_name ∈ ["semgrep", "bandit"] then .security
  else if kwHit security_keywords then .security
  else if kwHit performance_keywords then .performance
  else if kwHit style_keywords then .style
  else if kwHit bug_keywords then .bug
  else .other

/-! ### MD5 (`hashlib.md5` as used by `finding_to_normalized`)

Executable MD5 over byte lists, all arithmetic on `Nat` with explicit
reduction modulo `2 ^ 32`. -/

/-- Truncate to a 32-bit word. -/
def w32 (n : Nat) : Nat := n % 4294967296

/-- Left-rotate a 32-bit word (`x < 2 ^ 32`) by `c` bits (`c ≤ 32`). -/
def rotl32 (x c : Nat) : Nat := (x * 2 ^ c + x / 2 ^ (32 - c)) % 4294967296

/-- Per-round shift amounts of MD5. -/
def md5S : List Nat :=
  [7, 12, 17, 22, 7, 12, 17, 22, 7, 12, 17, 22, 7, 12, 17, 22,
   5, 9, 14, 20, 5, 9, 14, 20, 5, 9, 14, 20, 5, 9, 14, 20,
   4, 11, 16, 23, 4, 11, 16, 23, 4, 11, 16, 23, 4, 11, 16, 23,
   6, 10, 15, 21, 6, 10, 15, 21, 6, 10, 15, 21, 6, 10, 15, 21]

/-- The sine-derived MD5 constant table. -/
def md5K : List Nat :=
  [3614090360, 3905402710, 606105819, 3250441966,
   4118548399, 1200080426, 2821735955, 4249261313,
   1770035416, 2336552879, 4294925233, 2304563134,
   1804603682, 4254626195, 2792965006, 1236535329,
   4129170786, 3225465664, 643717713, 3921069994,
   3593408605, 38016083, 3634488961, 3889429448,
   568446438, 3275163606, 4107603335, 1163531501,
   2850285829, 4243563512, 1735328473, 2368359562,
   4294588738, 2272392833, 1839030562, 4259657740,
   2763975236, 1272893353, 4139469664, 3200236656,
   681279174, 3936430074, 3572445317, 76029189,
   3654602809, 3873151461, 530742520, 3299628645,
   4096336452, 1126891415, 2878612391, 4237533241,
   1700485571, 2399980690, 4293915773, 2240044497,
   1873313359, 4264355552, 2734768916, 1309151649,
   4149444226, 3174756917, 718787259, 3951481745]

/-- Little-endian word `g` of a 64-byte chunk. -/
def chunkWord (chunk : List Nat) (g : Nat) : Nat :=
  chunk.getD (4 * g) 0 + 256 * chunk.getD (4 * g + 1) 0 +
    65536 * chunk.getD (4 * g + 2) 0 + 16777216 * chunk.getD (4 * g + 3) 0

/-- One of the 64 MD5 rounds on the state `(a, b, c, d)`. -/
def md5Round (chunk : List Nat) (st : Nat × Nat × Nat × Nat) (i : Nat) :
    Nat × Nat × Nat × Nat :=
  let a := st.1
  let b := st.2.1
  let c := st.2.2.1
  let d := st.2.2.2
  let fg : Nat × Nat :=
    if i < 16 then ((b &&& c) ||| ((b ^^^ 4294967295) &&& d), i)
    else if i < 32 then ((d &&& b) ||| ((d ^^^ 4294967295) &&& c), (5 * i + 1) % 16)
    else if i < 48 then (b ^^^ c ^^^ d, (3 * i + 5) % 16)
    else (c ^^^ (b ||| (d ^^^ 4294967295)), (7 * i) % 16)
  let f := w32 (fg.1 + a + md5K.getD i 0 + chunkWord chunk fg.2)
  (d, w32 (b + rotl32 f (md5S.getD i 0)), b, c)

/-- Process one 64-byte chunk. -/
def md5Chunk (st : Nat × Nat × Nat × Nat) (chunk : List Nat) :
    Nat × Nat × Nat × Nat :=
  let r := (List.range 64).foldl (md5Round chunk) st
  (w32 (st.1 + r.1), w32 (st.2.1 + r.2.1), w32 (st.2.2.1 + r.2.2.1), w32 (st.2.2.2 + r.2.2.2))

/-- `k` little-endian bytes of a word. -/
def toBytesLE (k w : Nat) : List Nat :=
  (List.range k).map (fun i => w / 256 ^ i % 256)

/-- MD5 padding: `0x80`, zeros to 56 mod 64, then the 64-bit little-endian
bit length. -/
def md5Pad (msg : List Nat) : List Nat :=
  msg ++ [128] ++ List.replicate ((119 - msg.length % 64) % 64) 0 ++
    toBytesLE 8 ((msg.length * 8) % 18446744073709551616)

/-- Split into 64-byte chunks (fuel-based so it reduces in the kernel; the
fuel `l.length` always suffices since each step consumes at least one
element). -/
def chunks64Aux : Nat → List Nat → List (List Nat)
  | 0, _ => []
  | _ + 1, [] => []
  | fuel + 1, c :: rest =>
      (c :: rest).take 64 :: chunks64Aux fuel ((c :: rest).drop 64)

/-- Split a byte list into 64-byte chunks. -/
def chunks64 (l : List Nat) : List (List Nat) :=
  chunks64Aux l.length l

/-- The four 32-bit state words of the MD5 digest of a byte message. -/
def md5Words (msg : List Nat) : Nat × Nat × Nat × Nat :=
  (chunks64 (md5Pad msg)).foldl md5Chunk (1732584193, 4023233417, 2562383102, 271733878)

/-- The 16 digest bytes. -/
def md5Bytes (msg : List Nat) : List Nat :=
  let w := md5Words msg
  toBytesLE 4 w.1 ++ toBytesLE 4 w.2.1 ++ toBytesLE 4 w.2.2.1 ++ toBytesLE 4 w.2.2.2

/-- Lowercase hex digit. -/
def hexDigitChar (n : Nat) : Char :=
  if n < 10 then Char.ofNat (48 + n) else Char.ofNat (87 + n)

/-- Two hex characters of one byte, high nibble first. -/
def byteHex (b : Nat) : List Char :=
  [hexDigitChar (b / 16), hexDigitChar (b % 16)]

/-- `hashlib.md5(msg).hexdigest()` as a character list. -/
def md5HexChars (msg : List Nat) : List Char :=
  (md5Bytes msg).foldr (fun b acc => byteHex b ++ acc) []

/-- UTF-8 encoding of a character list (Python `str.encode()`). -/
def utf8Bytes (cs : List Char) : List Nat :=
  cs.foldr
    (fun c acc =>
      let n := c.toNat
      (if n < 128 then [n]
       else if n < 2048 then [192 + n / 64, 128 + n % 64]
       else if n < 65536 then [224 + n / 4096, 128 + n / 64 % 64, 128 + n % 64]
       else [240 + n / 262144, 128 + n / 4096 % 64, 128 + n / 64 % 64, 128 + n % 64]) ++ acc)
    []

/-- Python `s.encode()` of a string. -/
def strBytes (s : String) : List Nat :=
  utf8Bytes s.data

/-! ### Normalized findings (`src/analysis/finding_schema.py`) -/

/-- Decimal digits of a natural number, most significant first (fuel-based;
`n + 1` steps always suffice). -/
def natDigitsAux : Nat → Nat → List Char
  | 0, _ => []
  | fuel + 1, n =>
      if n < 10 then [Char.ofNat (48 + n)]
      else natDigitsAux fuel (n / 10) ++ [Char.ofNat (48 + n % 10)]

/-- Decimal digits of a natural number, most significant first. -/
def natDigits (n : Nat) : List Char :=
  natDigitsAux (n + 1) n

/-- Python `str(i)` for an `int`. -/
def intStr (i : Int) : String :=
  if i < 0 then String.mk ('-' :: natDigits i.natAbs) else String.mk (natDigits i.toNat)

/-- The `id_string = f"{finding.file_path}:{finding.line}:{finding.rule_id}"`
of `finding_to_normalized`. -/
def idString (f : Finding) : String :=
  f.file_path ++ ":" ++ intStr f.line ++ ":" ++ f.rule_id

/-- `hashlib.md5(id_string.encode()).hexdigest()[:12]` as characters. -/
def finding_idChars (f : Finding) : List Char :=
  (md5HexChars (strBytes (idString f))).take 12

/-- The normalized-finding id of `finding_to_normalized`. -/
def finding_id (f : Finding) : String :=
  String.mk (finding_idChars f)

/-- The `source` literal of `NormalizedFinding`. -/
inductive Source where
  | static
  | llm
  | hybrid
deriving DecidableEq, Repr

/-- `severity_map` of `finding_to_normalized` (total over the enum, so the
`"MEDIUM"` fallback of `dict.get` is unreachable). -/
def severityBand : Severity → String
  | .info => "LOW"
  | .warning => "MEDIUM"
  | .error => "HIGH"

/-- `NormalizedFinding` model from `src/analysis/finding_schema.py`. -/
structure NormalizedFinding where
  id : String
  source : Source
  file : String
  line : Int
  severity : String
  category : Category
  message : String
  suggested_fix : Option String
deriving DecidableEq, Repr

/-- `finding_to_normalized` from `src/analysis/finding_schema.py`. -/
def finding_to_normalized (finding : Finding) (source : Source) : NormalizedFinding :=
  { id := finding_id finding
    source := source
    file := finding.file_path
    line := finding.line
    severity := severityBand finding.severity
    category := infer_category finding.rule_id finding.tool_name finding.message
    message := finding.message
    suggested_fix := finding.suggestion }

/-! ### LLM response parsing (`LLMReviewer._parse_response`)

`json.loads` is a Python library call; its result is modelled as an
`Option JValue` (`none` = the string was not valid JSON, i.e. `json.loads`
raised).  JSON numbers are modelled as integers (no finding field is a
float in any observed response; a float would fail the `line: int` model
anyway). -/

/-- A parsed JSON value. -/
inductive JValue where
  | null
  | bool (b : Bool)
  | num (n : Int)
  | str (s : String)
  | arr (elems : List JValue)
  | obj (fields : List (String × JValue))

/-- Python `dict.get` on a JSON object: `none` = key absent (`json.loads`
builds the dict left to right, later duplicates overwrite). -/
def jGet (fields : List (String × JValue)) (k : String) : Option JValue :=
  fields.foldl (fun acc f => if f.1 == k then some f.2 else acc) none

/-- `Severity(s)` on an already-lowercased string; `none` models the
`ValueError` for a string that is no enum value. -/
def severityOfString (s : String) : Option Severity :=
  if s == "info" then some .info
  else if s == "warning" then some .warning
  else if s == "error" then some .error
  else none

/-- Build one `Finding` from one array item, as the loop body of
`_parse_response` does: `dict.get` with defaults, `Severity(...lower())`,
fixed tool name.  `.error ()` models any exception the loop body can raise
(`.get` on a non-dict item, `.lower()` on a non-string severity, an invalid
severity value, or a pydantic validation error on a wrongly-typed field). -/
def mkLlmFinding (file_path : String) (item : JValue) : Except Unit Finding := do
  match item with
  | .obj fields =>
      let rule_id ← match jGet fields "rule_id" with
        | none => pure "ai-review"
        | some (.str s) => pure s
        | some _ => throw ()
      let sevStr ← match jGet fields "severity" with
        | none => pure "warning"
        | some (.str s) => pure s
        | some _ => throw ()
      let severity ← match severityOfString (pyLower sevStr) with
        | some sv => pure sv
        | none => throw ()
      let line ← match jGet fields "line" with
        | none => pure (1 : Int)
        | some (.num n) => pure n
        | some _ => throw ()
      let message ← match jGet fields "message" with
        | none => pure "Issue found"
        | some (.str s) => pure s
        | some _ => throw ()
      let suggestion ← match jGet fields "suggestion" with
        | none => pure (Option.none (α := String))
        | some .null => pure none
        | some (.str s) => pure (some s)
        | some _ => throw ()
      pure { tool_name := "claude-ai", rule_id := rule_id, severity := severity,
             file_path := file_path, line := line, message := message,
             suggestion := suggestion }
  | _ => throw ()

/-- The `for item in data` loop of `_parse_response`: items are converted in
order and appended; the first exception aborts the loop, and the enclosing
`try`/`except` returns the findings accumulated so far. -/
def parseLlmItems (file_path : String) : List JValue → List Finding
  | [] => []
  | item :: rest =>
      match mkLlmFinding file_path item with
      | .ok f => f :: parseLlmItems file_path rest
      | .error _ => []

/-- `LLMReviewer._parse_response` after `json.loads`: `none` (invalid JSON)
or a non-array value yields no findings; an array is folded by
`parseLlmItems`.  Never raises. -/
def parse_response (data : Option JValue) (file_path : String) : List Finding :=
  match data with
  | none => []
  | some (.arr items) => parseLlmItems file_path items
  | some _ => []

/-! ### Job processing (`src/queue/tasks.py` with `src/integrations/git_ops.py`)

The Redis store is modelled as the list of snapshots passed to
`save_job_state`, in order; the git, engine and GitHub calls are oracles.
Timestamps are an abstract clock: `t0` for `datetime.utcnow()` at job start,
`t1` at completion. -/

/-- `JobState` enum from `src/api/models.py`. -/
inductive JobState where
  | queued
  | running
  | done
  | error
deriving DecidableEq, Repr

/-- The `job_state` dict of `process_review_job` (the keys the task writes). -/
structure JobRecord where
  job_id : String
  state : JobState
  created_at : Nat
  started_at : Option Nat
  repo : String
  base_sha : String
  head_sha : String
  pr_number : Option Int
  findings_count : Nat
  findings : List FindingSummary
  completed_at : Option Nat := none
  error : Option String := none
deriving DecidableEq, Repr

/-- `GitManager.clone_repo`: a `GitCommandError` from the underlying clone is
re-raised as `RuntimeError("Failed to clone repository: ...")`. -/
def clone_repo (gitResult : Except String String) : Except String String :=
  match gitResult with
  | .ok path => .ok path
  | .error e => .error ("Failed to clone repository: " ++ e)

/-- `GitManager.checkout_commit`: a `GitCommandError` is re-raised as
`RuntimeError("Failed to checkout commit <sha>: ...")`. -/
def checkout_commit (commit_sha : String) (gitResult : Except String Unit) :
    Except String Unit :=
  match gitResult with
  | .ok _ => .ok ()
  | .error e => .error ("Failed to checkout commit " ++ commit_sha ++ ": " ++ e)

/-- The `except` branch of `process_review_job`: mutate the current record to
the terminal `Error` state with the exception message and completion time. -/
def errorRecord (js : JobRecord) (msg : String) (t1 : Nat) : JobRecord :=
  { js with state := .error, completed_at := some t1, error := some msg }

/-- `process_review_job`: persist a `Running` record, then clone, checkout,
parse the diff, analyze, persist progress, post results, and persist the
terminal record; any exception is caught once, persisted as an `Error`
record, and re-raised (`.error`).  Returns the persisted snapshots in order
and the task's outcome.  (The `finally` cleanup touches only the working
copy on disk, never the job record, and is not modelled.) -/
def process_review_job (job_id repo base_sha head_sha : String)
    (pr_number : Option Int)
    (gitClone : Except String String) (gitCheckout : Except String Unit)
    (parsedDiffs : Except String (List FileDiff))
    (engineFindings : List FileDiff → List Finding)
    (postCheckRun : Except String Unit) (postPrComment : Except String Unit)
    (t0 t1 : Nat) : List JobRecord × Except String Unit :=
  let js0 : JobRecord :=
    { job_id := job_id, state := .running, created_at := t0, started_at := some t0,
      repo := repo, base_sha := base_sha, head_sha := head_sha,
      pr_number := pr_number, findings_count := 0, findings := [] }
  match clone_repo gitClone with
  | .error e => ([js0, errorRecord js0 e t1], .error e)
  | .ok _path =>
      match checkout_commit head_sha gitCheckout with
      | .error e => ([js0, errorRecord js0 e t1], .error e)
      | .ok _ =>
          match parsedDiffs with
          | .error e => ([js0, errorRecord js0 e t1], .error e)
          | .ok diffs =>
              let findings := engineFindings diffs
              let js1 : JobRecord :=
                { js0 with findings_count := findings.length,
                           findings := findings.map toSummary }
              match postCheckRun with
              | .error e => ([js0, js1, errorRecord js1 e t1], .error e)
              | .ok _ =>
                  match (match pr_number with
                         | some _ => postPrComment
                         | none => .ok ()) with
                  | .error e => ([js0, js1, errorRecord js1 e t1], .error e)
                  | .ok _ =>
                      let js2 : JobRecord :=
                        { js1 with state := .done, completed_at := some t1 }
                      ([js0, js1, js2], .ok ())

/-! ### Concrete fixtures used by counterexamples and witnesses -/

/-- The ten decimal digit characters. -/
def digitChars : List Char :=
  ['0', '1', '2', '3', '4', '5', '6', '7', '8', '9']

/-- A canonical hunk-header line `@@ -a,la +b,lb @@` as a character list. -/
def hunkHeaderLine (a la b lb : Nat) : List Char :=
  ('@' :: '@' :: ' ' :: '-' :: natDigits a) ++ (',' :: natDigits la) ++
    (' ' :: '+' :: natDigits b) ++ (',' :: natDigits lb) ++ [' ', '@', '@']

/-- Fixture: a modified file whose diff adds line 10. -/
def dAdd10 : FileDiff :=
  { file_path := "a.py", change_type := 'M', added_lines := [(10, "x")] }

/-- Fixture: a second diff entry for the same path with no added lines. -/
def dEmpty : FileDiff :=
  { file_path := "a.py", change_type := 'M' }

/-- Fixture: a static finding on `a.py` line 10. -/
def find10 : Finding :=
  { tool_name := "semgrep", rule_id := "R1", severity := .warning,
    file_path := "a.py", line := 10, message := "issue at 10" }

/-- Fixture: a static finding on `a.py` line 5. -/
def find5 : Finding :=
  { tool_name := "semgrep", rule_id := "R2", severity := .warning,
    file_path := "a.py", line := 5, message := "issue at 5" }

/-- Fixture: the `Finding` that `_parse_response` builds from the empty JSON
object `{}` (every field from its `dict.get` default). -/
def llmDefaultFinding : Finding :=
  { tool_name := "claude-ai", rule_id := "ai-review", severity := .warning,
    file_path := "a.py", line := 1, message := "Issue found" }

/-- Fixture: an LLM finding on a line (99) that is in no added-line sequence. -/
def llmFind99 : Finding :=
  { tool_name := "claude-ai", rule_id := "ai-1", severity := .warning,
    file_path := "a.py", line := 99, message := "llm issue" }

/-- Fixture: a well-formed LLM response item. -/
def llmGoodItem : JValue :=
  .obj [("rule_id", .str "r1"), ("severity", .str "error"), ("line", .num 7),
        ("message", .str "msg")]

/-- Fixture: the finding `_parse_response` builds from `llmGoodItem`. -/
def llmGoodFinding : Finding :=
  { tool_name := "claude-ai", rule_id := "r1", severity := .error,
    file_path := "a.py", line := 7, message := "msg" }

/-- Fixture: a response item whose severity string is no `Severity` value
(`Severity("critical")` raises `ValueError`). -/
def llmBadItem : JValue :=
  .obj [("severity", .str "critical")]

/-- Fixture: a finding used to evaluate the normalizer id concretely. -/
def exA : Finding :=
  { tool_name := "semgrep", rule_id := "E501", severity := .warning,
    file_path := "a.py", line := 10, message := "line too long" }

/-- `exA` with only the line changed. -/
def exALine : Finding :=
  { exA with line := 11 }

/-- `exA` with only the rule id changed. -/
def exARule : Finding :=
  { exA with rule_id := "E502" }

/-- The first 12 characters of an MD5 hexdigest, as a function of the first
digest word `a` and the low 16 bits `b16` of the second word. -/
def idPrefix (a b16 : Nat) : List Char :=
  (toBytesLE 4 a).foldr (fun x acc => byteHex x ++ acc) [] ++
    (byteHex (b16 % 256) ++ byteHex (b16 / 256))

/-- Fixture family: findings over one file and line whose rule ids are
pairwise distinct (`n` letters `r`). -/
def ruleFinding (n : Nat) : Finding :=
  { tool_name := "t", rule_id := String.mk (List.replicate n 'r'),
    severity := .warning, file_path := "f", line := 1, message := "m" }

/-! ### Helper lemmas: splitting, digits, decimal rendering -/

theorem splitOnChar_ne_nil (sep : Char) (cs : List Char) : splitOnChar sep cs ≠ [] := by
  cases cs with
  | nil => simp [splitOnChar]
  | cons c rest =>
      simp only [splitOnChar]
      by_cases h : c = sep
      · simp [h]
      · simp only [if_neg h]
        cases splitOnChar sep rest <;> simp

theorem splitOnChar_cons_sep (sep : Char) (ys : List Char) :
    splitOnChar sep (sep :: ys) = [] :: splitOnChar sep ys := by
  simp [splitOnChar]

theorem splitOnChar_nosep_append (sep : Char) (xs ys : List Char)
    (h : ∀ c ∈ xs, c ≠ sep) :
    splitOnChar sep (xs ++ ys) =
      (xs ++ (splitOnChar sep ys).headD []) :: (splitOnChar sep ys).tail := by
  induction xs with
  | nil =>
      simp only [List.nil_append]
      obtain ⟨h0, t0, e⟩ : ∃ h0 t0, splitOnChar sep ys = h0 :: t0 := by
        cases he : splitOnChar sep ys with
        | nil => exact absurd he (splitOnChar_ne_nil sep ys)
        | cons a b => exact ⟨a, b, rfl⟩
      simp [e]
  | cons x xs ih =>
      have hx : x ≠ sep := h x (by simp)
      have hxs : ∀ c ∈ xs, c ≠ sep := fun c hc => h c (by simp [hc])
      simp only [List.cons_append, splitOnChar, if_neg hx]
      rw [show xs.append ys = xs ++ ys from rfl, ih hxs]

theorem splitOnChar_nosep (sep : Char) (xs : List Char) (h : ∀ c ∈ xs, c ≠ sep) :
    splitOnChar sep xs = [xs] := by
  have := splitOnChar_nosep_append sep xs [] h
  simpa [splitOnChar] using this

theorem contains_of_mem {c : Char} {l : List Char} (h : c ∈ l) : l.contains c = true :=
  List.elem_iff.mpr h

theorem natDigitsAux_spec : ∀ fuel n, n < fuel →
    natDigitsAux fuel n ≠ [] ∧ (∀ c ∈ natDigitsAux fuel n, c ∈ digitChars) ∧
      digitsVal (natDigitsAux fuel n) = n := by
  intro fuel
  induction fuel with
  | zero => intro n h; omega
  | succ fuel ih =>
      intro n h
      by_cases h10 : n < 10
      · refine ⟨?_, ?_, ?_⟩ <;> simp only [natDigitsAux, if_pos h10]
        · simp
        · intro c hc
          simp only [List.mem_singleton] at hc
          subst hc
          interval_cases n <;> decide
        · simp only [digitsVal, List.foldl_cons, List.foldl_nil]
          interval_cases n <;> decide
      · have hn0 : 0 < n := by omega
        have hdlt : n / 10 < n := Nat.div_lt_self hn0 (by omega)
        have hfuel : n / 10 < fuel := by omega
        obtain ⟨ihne, ihmem, ihval⟩ := ih (n / 10) hfuel
        have hm : n % 10 < 10 := Nat.mod_lt _ (by omega)
        have hchar : (Char.ofNat (48 + n % 10)).toNat = 48 + n % 10 := by
          set m := n % 10 with hmdef
          interval_cases m <;> decide
        have hcharMem : Char.ofNat (48 + n % 10) ∈ digitChars := by
          set m := n % 10 with hmdef
          interval_cases m <;> decide
        refine ⟨?_, ?_, ?_⟩ <;> simp only [natDigitsAux, if_neg h10]
        · simp
        · intro c hc
          rcases List.mem_append.mp hc with hc | hc
          · exact ihmem c hc
          · simp only [List.mem_singleton] at hc
            subst hc
            exact hcharMem
        · simp only [digitsVal, List.foldl_append, List.foldl_cons, List.foldl_nil]
          have hval : List.foldl (fun a c => a * 10 + (c.toNat - 48)) 0
              (natDigitsAux fuel (n / 10)) = n / 10 := ihval
          rw [hval, hchar]
          omega

theorem natDigits_ne_nil (n : Nat) : natDigits n ≠ [] :=
  (natDigitsAux_spec (n + 1) n (by omega)).1

theorem natDigits_mem (n : Nat) : ∀ c ∈ natDigits n, c ∈ digitChars :=
  (natDigitsAux_spec (n + 1) n (by omega)).2.1

theorem digitsVal_natDigits (n : Nat) : digitsVal (natDigits n) = n :=
  (natDigitsAux_spec (n + 1) n (by omega)).2.2

theorem natDigits_injective {a b : Nat} (h : natDigits a = natDigits b) : a = b := by
  have := congrArg digitsVal h
  rwa [digitsVal_natDigits, digitsVal_natDigits] at this

theorem digitChar_facts : ∀ c ∈ digitChars,
    c.isDigit = true ∧ c.isWhitespace = false ∧ c ≠ ' ' ∧ c ≠ ',' ∧ c ≠ '-' ∧
      c ≠ '+' ∧ c ≠ ':' ∧ c ≠ '@' ∧ c ≠ '\\' := by decide

theorem dropWhile_eq_self {p : Char → Bool} {l : List Char}
    (h : ∀ c ∈ l, p c = false) : l.dropWhile p = l := by
  cases l with
  | nil => rfl
  | cons x xs => simp [List.dropWhile_cons, h x (by simp)]

theorem stripWs_eq_self {l : List Char} (h : ∀ c ∈ l, c.isWhitespace = false) :
    stripWs l = l := by
  unfold stripWs
  rw [dropWhile_eq_self h, dropWhile_eq_self (fun c hc => h c (List.mem_reverse.mp hc)),
    List.reverse_reverse]

theorem pyInt_natDigits (n : Nat) : pyInt (natDigits n) = some (n : Int) := by
  have hmem := natDigits_mem n
  have hne := natDigits_ne_nil n
  have hws : stripWs (natDigits n) = natDigits n :=
    stripWs_eq_self (fun c hc => (digitChar_facts c (hmem c hc)).2.1)
  have hall : (natDigits n).all (·.isDigit) = true := by
    rw [List.all_eq_true]
    intro c hc
    exact (digitChar_facts c (hmem c hc)).1
  obtain ⟨c, rest, hcr⟩ := List.exists_cons_of_ne_nil hne
  have hcd : c ∈ digitChars := hmem c (by rw [hcr]; simp)
  have hcm : ¬ c = '-' := (digitChar_facts c hcd).2.2.2.2.1
  have hcp : ¬ c = '+' := (digitChar_facts c hcd).2.2.2.2.2.1
  have hall' : (c :: rest).all (·.isDigit) = true := by rw [← hcr]; exact hall
  have hval : digitsVal (c :: rest) = n := by rw [← hcr]; exact digitsVal_natDigits n
  rw [hcr] at hws ⊢
  simp only [pyInt, hws, if_neg hcm, if_neg hcp, hall', hval, if_true]

theorem natDigits_not_char (n : Nat) (ch : Char) (hch : ch ∉ digitChars) :
    ∀ c ∈ natDigits n, c ≠ ch := by
  intro c hc he
  subst he
  exact hch (natDigits_mem n c hc)

theorem oldTok_header (a la : Nat) :
    oldTok ('-' :: (natDigits a ++ ',' :: natDigits la)) = natDigits a := by
  obtain ⟨c, cs, hcr⟩ := List.exists_cons_of_ne_nil (natDigits_ne_nil a)
  have hcd : c ∈ digitChars := natDigits_mem a c (by rw [hcr]; simp)
  have hcm : ¬ (c = '-') := (digitChar_facts c hcd).2.2.2.2.1
  unfold oldTok
  rw [hcr]
  simp only [List.cons_append, List.dropWhile_cons]
  norm_num [hcm]
  have hsplit : splitOnChar ',' ((c :: cs) ++ ',' :: natDigits la) =
      ((c :: cs) ++ (splitOnChar ',' (',' :: natDigits la)).headD []) ::
        (splitOnChar ',' (',' :: natDigits la)).tail := by
    refine splitOnChar_nosep_append ',' (c :: cs) (',' :: natDigits la) ?_
    intro x hx
    exact (digitChar_facts x (natDigits_mem a x (hcr ▸ hx))).2.2.2.1
  rw [splitOnChar_cons_sep] at hsplit
  simp only [List.cons_append, List.headD_cons, List.append_nil] at hsplit
  rw [hsplit]
  simp

theorem newTok_header (b lb : Nat) :
    newTok ('+' :: (natDigits b ++ ',' :: natDigits lb)) = natDigits b := by
  obtain ⟨c, cs, hcr⟩ := List.exists_cons_of_ne_nil (natDigits_ne_nil b)
  have hcd : c ∈ digitChars := natDigits_mem b c (by rw [hcr]; simp)
  have hcm : ¬ (c = '+') := (digitChar_facts c hcd).2.2.2.2.2.1
  unfold newTok
  rw [hcr]
  simp only [List.cons_append, List.dropWhile_cons]
  norm_num [hcm]
  have hsplit : splitOnChar ',' ((c :: cs) ++ ',' :: natDigits lb) =
      ((c :: cs) ++ (splitOnChar ',' (',' :: natDigits lb)).headD []) ::
        (splitOnChar ',' (',' :: natDigits lb)).tail := by
    refine splitOnChar_nosep_append ',' (c :: cs) (',' :: natDigits lb) ?_
    intro x hx
    exact (digitChar_facts x (natDigits_mem b x (hcr ▸ hx))).2.2.2.1
  rw [splitOnChar_cons_sep] at hsplit
  simp only [List.cons_append, List.headD_cons, List.append_nil] at hsplit
  rw [hsplit]
  simp

theorem hunkHeaderLine_parts (a la b lb : Nat) :
    splitOnChar ' ' (hunkHeaderLine a la b lb) =
      [['@', '@'], '-' :: (natDigits a ++ ',' :: natDigits la),
        '+' :: (natDigits b ++ ',' :: natDigits lb), ['@', '@']] := by
  have hre : hunkHeaderLine a la b lb =
      ['@', '@'] ++ ' ' :: (('-' :: (natDigits a ++ ',' :: natDigits la)) ++
        ' ' :: (('+' :: (natDigits b ++ ',' :: natDigits lb)) ++ ' ' :: ['@', '@'])) := by
    simp [hunkHeaderLine, List.append_assoc]
  have hd1 : ∀ c ∈ ('-' :: (natDigits a ++ ',' :: natDigits la)), c ≠ ' ' := by
    intro c hc
    rcases List.mem_cons.mp hc with h | h
    · subst h; decide
    · rcases List.mem_append.mp h with h | h
      · exact (digitChar_facts c (natDigits_mem a c h)).2.2.1
      · rcases List.mem_cons.mp h with h | h
        · subst h; decide
        · exact (digitChar_facts c (natDigits_mem la c h)).2.2.1
  have hd2 : ∀ c ∈ ('+' :: (natDigits b ++ ',' :: natDigits lb)), c ≠ ' ' := by
    intro c hc
    rcases List.mem_cons.mp hc with h | h
    · subst h; decide
    · rcases List.mem_append.mp h with h | h
      · exact (digitChar_facts c (natDigits_mem b c h)).2.2.1
      · rcases List.mem_cons.mp h with h | h
        · subst h; decide
        · exact (digitChar_facts c (natDigits_mem lb c h)).2.2.1
  rw [hre]
  rw [splitOnChar_nosep_append ' ' ['@', '@'] _ (by decide), splitOnChar_cons_sep]
  rw [splitOnChar_nosep_append ' ' _ _ hd1, splitOnChar_cons_sep]
  rw [splitOnChar_nosep_append ' ' _ _ hd2, splitOnChar_cons_sep]
  rw [splitOnChar_nosep ' ' ['@', '@'] (by decide)]
  simp

theorem headerStep_canonical (st : ParseState) (a la b lb : Nat) :
    headerStep st (hunkHeaderLine a la b lb) =
      .ok { st with old := (a : Int), new := (b : Int) } := by
  unfold headerStep
  rw [hunkHeaderLine_parts]
  simp only [List.get?, oldTok_header, newTok_header, pyInt_natDigits]

theorem parseStep_header_canonical (st : ParseState) (a la b lb : Nat) :
    parseStep st (hunkHeaderLine a la b lb) =
      .ok { st with old := (a : Int), new := (b : Int) } := by
  have hsw : lstartsWith ['@', '@'] (hunkHeaderLine a la b lb) = true := by
    simp [hunkHeaderLine, lstartsWith]
  rw [parseStep, if_pos hsw, headerStep_canonical]

theorem parseStep_added (st : ParseState) (line : List Char)
    (h1 : lstartsWith ['+'] line = true)
    (h3 : lstartsWith ['+', '+', '+'] line = false) :
    parseStep st line =
      .ok { st with added := st.added ++ [(st.new, String.mk (line.drop 1))],
                    new := st.new + 1 } := by
  obtain ⟨c, cs, rfl⟩ : ∃ c cs, line = c :: cs := by
    cases line with
    | nil => simp [lstartsWith] at h1
    | cons c cs => exact ⟨c, cs, rfl⟩
  have hc : c = '+' := by
    have h := h1
    simp [lstartsWith] at h
    exact h.symm
  subst hc
  have hAt : lstartsWith ['@', '@'] ('+' :: cs) = false := by simp [lstartsWith]
  simp [parseStep, hAt, h1, h3]

theorem parseStep_removed (st : ParseState) (line : List Char)
    (h1 : lstartsWith ['-'] line = true)
    (h3 : lstartsWith ['-', '-', '-'] line = false) :
    parseStep st line =
      .ok { st with removed := st.removed ++ [(st.old, String.mk (line.drop 1))],
                    old := st.old + 1 } := by
  obtain ⟨c, cs, rfl⟩ : ∃ c cs, line = c :: cs := by
    cases line with
    | nil => simp [lstartsWith] at h1
    | cons c cs => exact ⟨c, cs, rfl⟩
  have hc : c = '-' := by
    have h := h1
    simp [lstartsWith] at h
    exact h.symm
  subst hc
  have hAt : lstartsWith ['@', '@'] ('-' :: cs) = false := by simp [lstartsWith]
  have hPlus : lstartsWith ['+'] ('-' :: cs) = false := by simp [lstartsWith]
  simp [parseStep, hAt, hPlus, h1, h3]

theorem parseStep_context (st : ParseState) (line : List Char)
    (hAt : lstartsWith ['@', '@'] line = false)
    (hPlus : lstartsWith ['+'] line = false)
    (hMinus : lstartsWith ['-'] line = false)
    (hNoNl : lstartsWith ['\\'] line = false) :
    parseStep st line = .ok { st with old := st.old + 1, new := st.new + 1 } := by
  simp [parseStep, hAt, hPlus, hMinus, hNoNl]

theorem parseStep_nonewline (st : ParseState) (line : List Char)
    (h : lstartsWith ['\\'] line = true) :
    parseStep st line = .ok st := by
  obtain ⟨c, cs, rfl⟩ : ∃ c cs, line = c :: cs := by
    cases line with
    | nil => simp [lstartsWith] at h
    | cons c cs => exact ⟨c, cs, rfl⟩
  have hc : c = '\\' := by
    have h2 := h
    simp [lstartsWith] at h2
    exact h2.symm
  subst hc
  have hAt : lstartsWith ['@', '@'] ('\\' :: cs) = false := by simp [lstartsWith]
  have hPlus : lstartsWith ['+'] ('\\' :: cs) = false := by simp [lstartsWith]
  have hMinus : lstartsWith ['-'] ('\\' :: cs) = false := by simp [lstartsWith]
  simp [parseStep, hAt, hPlus, hMinus, h]

/-- C2: parsing the unified-diff text
`"@@ -1,2 +1,3 @@\n import os\n-print('old')\n+print('new')\n+print('added')\n"`
yields exactly `added = [(2, "print('new')"), (3, "print('added')")]` and
`removed = [(2, "print('old')")]`; and in general the parser resets both
cursors from a hunk header `@@ -a,la +b,lb @@`, records an added line at the
new cursor then advances it, records a removed line at the old cursor then
advances it, advances both cursors on a context line, and advances neither
on a line beginning with the no-newline marker `\`. -/
theorem C2_unified_diff_parsing :
    (parse_unified_diff
        "@@ -1,2 +1,3 @@\n import os\n-print('old')\n+print('new')\n+print('added')\n" =
      .ok ([(2, "print('new')"), (3, "print('added')")], [(2, "print('old')")]))
    ∧ (∀ (st : ParseState) (a la b lb : Nat),
        parseStep st (hunkHeaderLine a la b lb) =
          .ok { st with old := (a : Int), new := (b : Int) })
    ∧ (∀ (st : ParseState) (line : List Char),
        lstartsWith ['+'] line = true → lstartsWith ['+', '+', '+'] line = false →
        parseStep st line =
          .ok { st with added := st.added ++ [(st.new, String.mk (line.drop 1))],
                        new := st.new + 1 })
    ∧ (∀ (st : ParseState) (line : List Char),
        lstartsWith ['-'] line = true → lstartsWith ['-', '-', '-'] line = false →
        parseStep st line =
          .ok { st with removed := st.removed ++ [(st.old, String.mk (line.drop 1))],
                        old := st.old + 1 })
    ∧ (∀ (st : ParseState) (line : List Char),
        lstartsWith ['@', '@'] line = false → lstartsWith ['+'] line = false →
        lstartsWith ['-'] line = false → lstartsWith ['\\'] line = false →
        parseStep st line = .ok { st with old := st.old + 1, new := st.new + 1 })
    ∧ (∀ (st : ParseState) (line : List Char),
        lstartsWith ['\\'] line = true → parseStep st line = .ok st) :=
  ⟨by decide, parseStep_header_canonical, parseStep_added, parseStep_removed,
    parseStep_context, parseStep_nonewline⟩

/-- Witness for C2 at concrete inputs: one canonical header, one added line,
one removed line, one context line, one no-newline marker. -/
theorem C2_unified_diff_parsing_witness :
    parseStep ⟨3, 4, [], []⟩ (hunkHeaderLine 10 2 20 3) = .ok ⟨10, 20, [], []⟩
    ∧ parseStep ⟨5, 7, [], []⟩ ['+', 'x'] = .ok ⟨5, 8, [(7, "x")], []⟩
    ∧ parseStep ⟨5, 7, [], []⟩ ['-', 'y'] = .ok ⟨6, 7, [], [(5, "y")]⟩
    ∧ parseStep ⟨5, 7, [], []⟩ [' ', 'z'] = .ok ⟨6, 8, [], []⟩
    ∧ parseStep ⟨5, 7, [], []⟩ ['\\', ' '] = .ok ⟨5, 7, [], []⟩ := by
  refine ⟨?_, ?_, ?_, ?_, ?_⟩
  · exact C2_unified_diff_parsing.2.1 ⟨3, 4, [], []⟩ 10 2 20 3
  · exact C2_unified_diff_parsing.2.2.1 ⟨5, 7, [], []⟩ ['+', 'x'] (by decide) (by decide)
  · exact C2_unified_diff_parsing.2.2.2.1 ⟨5, 7, [], []⟩ ['-', 'y'] (by decide) (by decide)
  · exact C2_unified_diff_parsing.2.2.2.2.1 ⟨5, 7, [], []⟩ [' ', 'z']
      (by decide) (by decide) (by decide) (by decide)
  · exact C2_unified_diff_parsing.2.2.2.2.2 ⟨5, 7, [], []⟩ ['\\', ' '] (by decide)

/-- C3 counterexample: the hunk header `@@ -5,2 +x,3 @@` fails to parse
(`int("x")` raises `ValueError`), yet the old-line cursor does not retain its
prior value 2 — it has already been set to 5 when the removed line `-gone` is
recorded; and a header line `@@` with fewer than three space-separated parts
raises an uncaught `IndexError` instead of being skipped. -/
theorem C3_header_counterexample :
    parse_unified_diff "@@ -1,1 +1,1 @@\n ctx\n@@ -5,2 +x,3 @@\n-gone\n" =
      .ok ([], [(5, "gone")])
    ∧ parse_unified_diff "@@ -1,1 +1,1 @@\n ctx\n@@ -5,2 +x,3 @@\n-gone\n" ≠
      .ok ([], [(2, "gone")])
    ∧ parse_unified_diff "@@\n" = .error () := by decide

/-- C3 (amended): a hunk-header line with at least three space-separated
parts whose numbers fail to parse is skipped without error, but the cursors
are only partially preserved: if the old start fails to parse both cursors
keep their values, while if only the new start fails the old cursor has
already been overwritten; a header with fewer than three space-separated
parts raises an uncaught `IndexError` (modelled `.error ()`), aborting the
parse. -/
theorem C3_header_amended :
    (∀ (st : ParseState) (line : List Char) (p1 p2 : List Char),
      lstartsWith ['@', '@'] line = true →
      (splitOnChar ' ' line).get? 1 = some p1 →
      (splitOnChar ' ' line).get? 2 = some p2 →
      (pyInt (oldTok p1) = none → parseStep st line = .ok st)
      ∧ (∀ o : Int, pyInt (oldTok p1) = some o → pyInt (newTok p2) = none →
          parseStep st line = .ok { st with old := o })
      ∧ (∀ o n : Int, pyInt (oldTok p1) = some o → pyInt (newTok p2) = some n →
          parseStep st line = .ok { st with old := o, new := n }))
    ∧ (∀ (st : ParseState) (line : List Char),
      lstartsWith ['@', '@'] line = true →
      ((splitOnChar ' ' line).get? 1 = none ∨ (splitOnChar ' ' line).get? 2 = none) →
      parseStep st line = .error ()) := by
  constructor
  · intro st line p1 p2 hpos h1 h2
    simp only [List.get?_eq_getElem?] at h1 h2
    refine ⟨?_, ?_, ?_⟩
    · intro ho
      simp [parseStep, hpos, headerStep, h1, h2, ho]
    · intro o ho hn
      simp [parseStep, hpos, headerStep, h1, h2, ho, hn]
    · intro o n ho hn
      simp [parseStep, hpos, headerStep, h1, h2, ho, hn]
  · intro st line hpos hnone
    rcases hnone with h | h
    · simp only [List.get?_eq_getElem?] at h
      simp [parseStep, hpos, headerStep, h]
    · simp only [List.get?_eq_getElem?] at h
      cases hg : (splitOnChar ' ' line)[1]? with
      | none => simp [parseStep, hpos, headerStep, hg]
      | some p1 => simp [parseStep, hpos, headerStep, hg, h]

/-- Witness for C3 (amended) at concrete header lines: old start fails to
parse (state kept), new start fails to parse (old cursor overwritten to 5),
both parse (full reset), and a two-part header (uncaught error). -/
theorem C3_header_amended_witness :
    parseStep ⟨1, 2, [], []⟩ "@@ -x,1 +2,2 @@".data = .ok ⟨1, 2, [], []⟩
    ∧ parseStep ⟨1, 2, [], []⟩ "@@ -5,2 +x,3 @@".data = .ok ⟨5, 2, [], []⟩
    ∧ parseStep ⟨1, 2, [], []⟩ "@@ -7,1 +8,1 @@".data = .ok ⟨7, 8, [], []⟩
    ∧ parseStep ⟨1, 2, [], []⟩ "@@".data = .error () := by
  refine ⟨?_, ?_, ?_, ?_⟩
  · exact (C3_header_amended.1 ⟨1, 2, [], []⟩ "@@ -x,1 +2,2 @@".data
      "-x,1".data "+2,2".data (by decide) (by decide) (by decide)).1 (by decide)
  · exact (C3_header_amended.1 ⟨1, 2, [], []⟩ "@@ -5,2 +x,3 @@".data
      "-5,2".data "+x,3".data (by decide) (by decide) (by decide)).2.1 5
      (by decide) (by decide)
  · exact (C3_header_amended.1 ⟨1, 2, [], []⟩ "@@ -7,1 +8,1 @@".data
      "-7,1".data "+8,1".data (by decide) (by decide) (by decide)).2.2 7 8
      (by decide) (by decide)
  · exact C3_header_amended.2 ⟨1, 2, [], []⟩ "@@".data (by decide) (.inl (by decide))

/-! ### Relevance-filter lemmas and claim C1 -/

theorem changedFileLookup_concat (l : List FileDiff) (d : FileDiff) (p : String) :
    changedFileLookup (l ++ [d]) p =
      if d.file_path == p then some d else changedFileLookup l p := by
  simp [changedFileLookup, List.foldl_append]

theorem changedFileLookup_mem {l : List FileDiff} {p : String} {d : FileDiff}
    (h : changedFileLookup l p = some d) : d ∈ l ∧ d.file_path = p := by
  induction l using List.reverseRecOn with
  | nil => simp [changedFileLookup] at h
  | append_singleton l e ih =>
      rw [changedFileLookup_concat] at h
      cases he : (e.file_path == p) with
      | true =>
          rw [if_pos he] at h
          cases h
          exact ⟨by simp, by simpa using he⟩
      | false =>
          rw [if_neg (by simp [he])] at h
          obtain ⟨hmem, hpath⟩ := ih h
          exact ⟨by simp [hmem], hpath⟩

theorem changedFileLookup_eq_some_of_nodup {l : List FileDiff} {d : FileDiff}
    (hnd : (l.map FileDiff.file_path).Nodup) (hd : d ∈ l) :
    changedFileLookup l d.file_path = some d := by
  induction l using List.reverseRecOn with
  | nil => simp at hd
  | append_singleton l e ih =>
      rw [changedFileLookup_concat]
      rw [List.map_append, List.nodup_append] at hnd
      obtain ⟨hnd1, _, hdisj⟩ := hnd
      rcases List.mem_append.mp hd with hmem | hlast
      · have hne : e.file_path ≠ d.file_path := by
          intro he
          exact hdisj (List.mem_map_of_mem FileDiff.file_path hmem) (by simp [he])
        rw [if_neg (by simpa using hne)]
        exact ih hnd1 hmem
      · have : d = e := by simpa using hlast
        subst this
        simp

theorem isRelevant_iff_of_nodup (diffs : List FileDiff) (f : Finding)
    (hnd : (diffs.map FileDiff.file_path).Nodup) :
    isRelevant diffs f = true ↔
      ∃ d ∈ diffs, d.file_path = f.file_path ∧ ∃ e ∈ d.added_lines, e.1 = f.line := by
  unfold isRelevant
  constructor
  · intro h
    cases hl : changedFileLookup diffs f.file_path with
    | none => rw [hl] at h; simp at h
    | some d =>
        rw [hl] at h
        obtain ⟨hmem, hpath⟩ := changedFileLookup_mem hl
        obtain ⟨e, he, heq⟩ := List.any_eq_true.mp h
        exact ⟨d, hmem, hpath, e, he, (by simpa using heq :
          f.line = e.1).symm ▸ rfl⟩
  · rintro ⟨d, hd, hpath, e, he, hline⟩
    have hl := changedFileLookup_eq_some_of_nodup hnd hd
    rw [hpath] at hl
    rw [hl]
    exact List.any_eq_true.mpr ⟨e, he, by simp [hline]⟩

/-- C1 counterexample: with two `FileDiff` entries for the same path, the
`changed_files` dict keeps only the last one, so a finding matching an
added line of the first entry is dropped even though some `FileDiff` in the
list matches it — the claimed iff fails. -/
theorem C1_relevance_filter_counterexample :
    ¬ (∀ (findings : List Finding) (diffs : List FileDiff) (f : Finding),
        f ∈ filter_relevant_findings findings diffs ↔
          (f ∈ findings ∧ ∃ d ∈ diffs, d.file_path = f.file_path ∧
            ∃ e ∈ d.added_lines, e.1 = f.line)) := by
  intro h
  have h2 := (h [find10] [dAdd10, dEmpty] find10).mpr (by decide)
  exact absurd h2 (by decide)

/-- C1 (amended): when the diff list has pairwise-distinct file paths (the
situation the claim describes — one `FileDiff` per file), a static finding is
kept iff its path equals some `FileDiff`'s path and its line equals the line
number of an entry of that `FileDiff`'s `added_lines`; with duplicate paths
only the last `FileDiff` of a path is consulted.  The spec's concrete
example holds: with `added_lines = [(10, "x")]` and static findings at lines
10 and 5, `analyze` in `static_only` mode returns only the line-10 finding
(and never invokes the LLM oracle). -/
theorem C1_relevance_filter_amended :
    (∀ (findings : List Finding) (diffs : List FileDiff) (f : Finding),
      (diffs.map FileDiff.file_path).Nodup →
      (f ∈ filter_relevant_findings findings diffs ↔
        (f ∈ findings ∧ ∃ d ∈ diffs, d.file_path = f.file_path ∧
          ∃ e ∈ d.added_lines, e.1 = f.line)))
    ∧ analyze [find10, find5] [] (fun _ _ => .ok []) [dAdd10] "static_only" =
        ([find10], [.semgrepRun, .banditRun]) := by
  constructor
  · intro findings diffs f hnd
    rw [filter_relevant_findings, List.mem_filter, isRelevant_iff_of_nodup _ _ hnd]
  · decide

/-- Witness for C1 (amended) at the spec's concrete input. -/
theorem C1_relevance_filter_amended_witness :
    find10 ∈ filter_relevant_findings [find10, find5] [dAdd10] ↔
      (find10 ∈ [find10, find5] ∧ ∃ d ∈ [dAdd10], d.file_path = find10.file_path ∧
        ∃ e ∈ d.added_lines, e.1 = find10.line) :=
  C1_relevance_filter_amended.1 [find10, find5] [dAdd10] find10 (by decide)

/-! ### Engine lemmas and claims C4, C7, C10 -/

theorem review_diff_events_llm
    (llm : FileDiff → List Finding → Except String (List Finding))
    (diffs : List FileDiff) (staticF : List Finding) :
    ∀ e ∈ (review_diff llm diffs staticF).2, ∃ p ctx, e = Event.llmCall p ctx := by
  induction diffs with
  | nil => intro e he; simp [review_diff] at he
  | cons d rest ih =>
      intro e he
      simp only [review_diff] at he
      by_cases h1 : (d.change_type == 'D') = true
      · rw [if_pos h1] at he
        exact ih e he
      · rw [if_neg h1] at he
        by_cases h2 : (blankContent d.new_content && d.added_lines.isEmpty) = true
        · rw [if_pos h2] at he
          exact ih e he
        · rw [if_neg h2] at he
          cases hllm : llm d (fileContext staticF d) with
          | ok fs =>
              rw [hllm] at he
              simp only [List.mem_cons] at he
              rcases he with he | he
              · exact ⟨d.file_path, fileContext staticF d, he⟩
              · exact ih e he
          | error msg =>
              rw [hllm] at he
              simp only [List.mem_cons] at he
              rcases he with he | he
              · exact ⟨d.file_path, fileContext staticF d, he⟩
              · exact ih e he

theorem review_diff_event_context
    (llm : FileDiff → List Finding → Except String (List Finding))
    (diffs : List FileDiff) (staticF : List Finding) (p : String)
    (ctx : List Finding) :
    Event.llmCall p ctx ∈ (review_diff llm diffs staticF).2 →
      ctx = staticF.filter (fun f => f.file_path == p) := by
  induction diffs with
  | nil => intro he; simp [review_diff] at he
  | cons d rest ih =>
      intro he
      simp only [review_diff] at he
      by_cases h1 : (d.change_type == 'D') = true
      · rw [if_pos h1] at he
        exact ih he
      · rw [if_neg h1] at he
        by_cases h2 : (blankContent d.new_content && d.added_lines.isEmpty) = true
        · rw [if_pos h2] at he
          exact ih he
        · rw [if_neg h2] at he
          have hhead : Event.llmCall p ctx = Event.llmCall d.file_path (fileContext staticF d) →
              ctx = staticF.filter (fun f => f.file_path == p) := by
            intro h
            injection h with hp hctx
            subst hp
            rw [hctx]
            rfl
          cases hllm : llm d (fileContext staticF d) with
          | ok fs =>
              rw [hllm] at he
              simp only [List.mem_cons] at he
              rcases he with he | he
              · exact hhead he
              · exact ih he
          | error msg =>
              rw [hllm] at he
              simp only [List.mem_cons] at he
              rcases he with he | he
              · exact hhead he
              · exact ih he

theorem review_diff_mem
    (llm : FileDiff → List Finding → Except String (List Finding))
    (diffs : List FileDiff) (staticF : List Finding) (d : FileDiff)
    (fs : List Finding) (g : Finding)
    (hmem : d ∈ diffs) (hdel : (d.change_type == 'D') = false)
    (hskip : (blankContent d.new_content && d.added_lines.isEmpty) = false)
    (hllm : llm d (fileContext staticF d) = .ok fs) (hg : g ∈ fs) :
    g ∈ (review_diff llm diffs staticF).1 := by
  induction diffs with
  | nil => simp at hmem
  | cons d0 rest ih =>
      simp only [review_diff]
      rcases List.mem_cons.mp hmem with heq | htail
      · subst heq
        rw [if_neg (by simp [hdel]), if_neg (by simp [hskip]), hllm]
        exact List.mem_append_left _ hg
      · by_cases h1 : (d0.change_type == 'D') = true
        · rw [if_pos h1]
          exact ih htail
        · rw [if_neg h1]
          by_cases h2 : (blankContent d0.new_content && d0.added_lines.isEmpty) = true
          · rw [if_pos h2]
            exact ih htail
          · rw [if_neg h2]
            cases hllm0 : llm d0 (fileContext staticF d0) with
            | ok fs0 => exact List.mem_append_right _ (ih htail)
            | error msg => exact ih htail

theorem analyze_static_only (sg b : List Finding)
    (llm : FileDiff → List Finding → Except String (List Finding))
    (diffs : List FileDiff) :
    analyze sg b llm diffs "static_only" =
      (filter_relevant_findings (sg ++ b) diffs, [.semgrepRun, .banditRun]) := by
  have h1 : (("static_only" == "static_only") || ("static_only" == "hybrid")) = true := by
    decide
  have h2 : (("static_only" == "llm_only") || ("static_only" == "hybrid")) = false := by
    decide
  simp [analyze, h1, h2]

theorem analyze_llm_only (sg b : List Finding)
    (llm : FileDiff → List Finding → Except String (List Finding))
    (diffs : List FileDiff) :
    analyze sg b llm diffs "llm_only" = review_diff llm diffs [] := by
  have h1 : (("llm_only" == "static_only") || ("llm_only" == "hybrid")) = false := by
    decide
  have h2 : (("llm_only" == "llm_only") || ("llm_only" == "hybrid")) = true := by
    decide
  have h3 : ("llm_only" == "hybrid") = false := by decide
  simp [analyze, h1, h2, h3]

theorem analyze_hybrid (sg b : List Finding)
    (llm : FileDiff → List Finding → Except String (List Finding))
    (diffs : List FileDiff) :
    analyze sg b llm diffs "hybrid" =
      (filter_relevant_findings (sg ++ b) diffs ++
        (review_diff llm diffs (filter_relevant_findings (sg ++ b) diffs)).1,
       Event.semgrepRun :: Event.banditRun ::
        (review_diff llm diffs (filter_relevant_findings (sg ++ b) diffs)).2) := by
  have h1 : (("hybrid" == "static_only") || ("hybrid" == "hybrid")) = true := by decide
  have h2 : (("hybrid" == "llm_only") || ("hybrid" == "hybrid")) = true := by decide
  have h3 : ("hybrid" == "hybrid") = true := by decide
  simp [analyze, h1, h2, h3]

/-- C4: in `static_only` mode `analyze` never invokes the LLM oracle (its
trace holds no `llmCall` and its result does not depend on the oracle); in
`llm_only` mode it never invokes a static adapter (no `semgrepRun` /
`banditRun` event, result independent of the tool outputs) and every LLM
call receives the empty context; in `hybrid` mode both stages run and each
per-file LLM call receives exactly the relevance-filtered static findings
whose path equals that file's path. -/
theorem C4_mode_gating :
    (∀ (sg b : List Finding)
      (llm llm' : FileDiff → List Finding → Except String (List Finding))
      (diffs : List FileDiff),
      analyze sg b llm diffs "static_only" = analyze sg b llm' diffs "static_only"
      ∧ (∀ (p : String) (ctx : List Finding),
          Event.llmCall p ctx ∉ (analyze sg b llm diffs "static_only").2))
    ∧ (∀ (sg sg' b b' : List Finding)
      (llm : FileDiff → List Finding → Except String (List Finding))
      (diffs : List FileDiff),
      analyze sg b llm diffs "llm_only" = analyze sg' b' llm diffs "llm_only"
      ∧ Event.semgrepRun ∉ (analyze sg b llm diffs "llm_only").2
      ∧ Event.banditRun ∉ (analyze sg b llm diffs "llm_only").2
      ∧ (∀ (p : String) (ctx : List Finding),
          Event.llmCall p ctx ∈ (analyze sg b llm diffs "llm_only").2 → ctx = []))
    ∧ (∀ (sg b : List Finding)
      (llm : FileDiff → List Finding → Except String (List Finding))
      (diffs : List FileDiff),
      (analyze sg b llm diffs "hybrid").2 =
        Event.semgrepRun :: Event.banditRun ::
          (review_diff llm diffs (filter_relevant_findings (sg ++ b) diffs)).2
      ∧ (∀ (p : String) (ctx : List Finding),
          Event.llmCall p ctx ∈ (analyze sg b llm diffs "hybrid").2 →
            ctx = (filter_relevant_findings (sg ++ b) diffs).filter
              (fun f => f.file_path == p))) := by
  refine ⟨?_, ?_, ?_⟩
  · intro sg b llm llm' diffs
    refine ⟨by rw [analyze_static_only, analyze_static_only], ?_⟩
    intro p ctx hmem
    rw [analyze_static_only] at hmem
    simp at hmem
  · intro sg sg' b b' llm diffs
    refine ⟨by rw [analyze_llm_only, analyze_llm_only], ?_, ?_, ?_⟩
    · intro hmem
      rw [analyze_llm_only] at hmem
      obtain ⟨p, ctx, h⟩ := review_diff_events_llm llm diffs [] _ hmem
      exact Event.noConfusion h
    · intro hmem
      rw [analyze_llm_only] at hmem
      obtain ⟨p, ctx, h⟩ := review_diff_events_llm llm diffs [] _ hmem
      exact Event.noConfusion h
    · intro p ctx hmem
      rw [analyze_llm_only] at hmem
      have := review_diff_event_context llm diffs [] p ctx hmem
      simpa using this
  · intro sg b llm diffs
    refine ⟨by rw [analyze_hybrid], ?_⟩
    intro p ctx hmem
    rw [analyze_hybrid] at hmem
    simp only [List.mem_cons] at hmem
    rcases hmem with h | h | h
    · exact Event.noConfusion h
    · exact Event.noConfusion h
    · exact review_diff_event_context llm diffs _ p ctx h

/-- Witness for C4 at concrete inputs: oracle-independence in `static_only`
mode, no static event in `llm_only` mode, and the context equation for the
one `llmCall` event of a concrete `hybrid` run. -/
theorem C4_mode_gating_witness :
    analyze [find10] [] (fun _ _ => .ok []) [dAdd10] "static_only" =
      analyze [find10] [] (fun _ _ => .ok [find5]) [dAdd10] "static_only"
    ∧ Event.semgrepRun ∉
        (analyze [find10] [] (fun _ _ => .ok []) [dAdd10] "llm_only").2
    ∧ ([find10] : List Finding) =
        (filter_relevant_findings ([find10, find5] ++ []) [dAdd10]).filter
          (fun f => f.file_path == "a.py") := by
  refine ⟨?_, ?_, ?_⟩
  · exact (C4_mode_gating.1 [find10] [] (fun _ _ => .ok [])
      (fun _ _ => .ok [find5]) [dAdd10]).1
  · exact (C4_mode_gating.2.1 [find10] [find10] [] [] (fun _ _ => .ok [])
      [dAdd10]).2.1
  · exact (C4_mode_gating.2.2 [find10, find5] [] (fun _ _ => .ok [])
      [dAdd10]).2 "a.py" [find10] (by decide)

/-- C7: in `hybrid` mode (the mode in which both stages run) the output of
`analyze` is exactly the relevance-filtered static findings — semgrep's
output before bandit's, each in tool order, filter preserving order —
followed by all LLM findings in file-iteration order; the length equation
and the two retention clauses make explicit that no cross-stage
deduplication happens: every filtered static finding and every LLM finding
is in the output, even when they coincide on file and line. -/
theorem C7_output_order :
    ∀ (sg b : List Finding)
      (llm : FileDiff → List Finding → Except String (List Finding))
      (diffs : List FileDiff),
      (analyze sg b llm diffs "hybrid").1 =
        filter_relevant_findings (sg ++ b) diffs ++
          (review_diff llm diffs (filter_relevant_findings (sg ++ b) diffs)).1
      ∧ (analyze sg b llm diffs "hybrid").1.length =
          (filter_relevant_findings (sg ++ b) diffs).length +
            (review_diff llm diffs (filter_relevant_findings (sg ++ b) diffs)).1.length
      ∧ (∀ f ∈ filter_relevant_findings (sg ++ b) diffs,
          f ∈ (analyze sg b llm diffs "hybrid").1)
      ∧ (∀ g ∈ (review_diff llm diffs (filter_relevant_findings (sg ++ b) diffs)).1,
          g ∈ (analyze sg b llm diffs "hybrid").1) := by
  intro sg b llm diffs
  have h := analyze_hybrid sg b llm diffs
  refine ⟨by rw [h], by rw [h]; simp, ?_, ?_⟩
  · intro f hf
    rw [h]
    exact List.mem_append_left _ hf
  · intro g hg
    rw [h]
    exact List.mem_append_right _ hg

/-- Witness for C7 at a concrete hybrid run in which a static finding and an
LLM finding coincide on file `a.py` line 10 and both are retained. -/
theorem C7_output_order_witness :
    (analyze [find10] [] (fun _ _ => .ok [find10]) [dAdd10] "hybrid").1 =
      filter_relevant_findings ([find10] ++ []) [dAdd10] ++
        (review_diff (fun _ _ => .ok [find10]) [dAdd10]
          (filter_relevant_findings ([find10] ++ []) [dAdd10])).1
    ∧ find10 ∈ (analyze [find10] [] (fun _ _ => .ok [find10]) [dAdd10] "hybrid").1 := by
  constructor
  · exact (C7_output_order [find10] [] (fun _ _ => .ok [find10]) [dAdd10]).1
  · exact (C7_output_order [find10] [] (fun _ _ => .ok [find10]) [dAdd10]).2.2.1
      find10 (by decide)

/-- C10: LLM findings bypass the relevance filter.  In both LLM-running
modes, a finding returned by the per-file LLM oracle for a processed file is
in the output of `analyze` even when its line number appears in no entry of
that file's `added_lines` — only the static stage is restricted to changed
lines. -/
theorem C10_llm_findings_unfiltered :
    (∀ (sg b : List Finding)
      (llm : FileDiff → List Finding → Except String (List Finding))
      (diffs : List FileDiff) (d : FileDiff) (fs : List Finding) (g : Finding),
      d ∈ diffs → (d.change_type == 'D') = false →
      (blankContent d.new_content && d.added_lines.isEmpty) = false →
      llm d (fileContext (filter_relevant_findings (sg ++ b) diffs) d) = .ok fs →
      g ∈ fs → (∀ e ∈ d.added_lines, e.1 ≠ g.line) →
      g ∈ (analyze sg b llm diffs "hybrid").1)
    ∧ (∀ (sg b : List Finding)
      (llm : FileDiff → List Finding → Except String (List Finding))
      (diffs : List FileDiff) (d : FileDiff) (fs : List Finding) (g : Finding),
      d ∈ diffs → (d.change_type == 'D') = false →
      (blankContent d.new_content && d.added_lines.isEmpty) = false →
      llm d (fileContext [] d) = .ok fs →
      g ∈ fs → (∀ e ∈ d.added_lines, e.1 ≠ g.line) →
      g ∈ (analyze sg b llm diffs "llm_only").1) := by
  constructor
  · intro sg b llm diffs d fs g hmem hdel hskip hllm hg _hline
    rw [analyze_hybrid]
    exact List.mem_append_right _
      (review_diff_mem llm diffs _ d fs g hmem hdel hskip hllm hg)
  · intro sg b llm diffs d fs g hmem hdel hskip hllm hg _hline
    rw [analyze_llm_only]
    exact review_diff_mem llm diffs [] d fs g hmem hdel hskip hllm hg

/-- Witness for C10: a concrete LLM finding on line 99 of `a.py`, a line in
no added-line sequence, is in the hybrid and llm-only outputs. -/
theorem C10_llm_findings_unfiltered_witness :
    llmFind99 ∈ (analyze [find10] [] (fun _ _ => .ok [llmFind99]) [dAdd10] "hybrid").1
    ∧ llmFind99 ∈
        (analyze [find10] [] (fun _ _ => .ok [llmFind99]) [dAdd10] "llm_only").1 := by
  constructor
  · exact C10_llm_findings_unfiltered.1 [find10] [] (fun _ _ => .ok [llmFind99])
      [dAdd10] dAdd10 [llmFind99] llmFind99 (by decide) (by decide) (by decide)
      (by decide) (by decide) (by decide)
  · exact C10_llm_findings_unfiltered.2 [find10] [] (fun _ _ => .ok [llmFind99])
      [dAdd10] dAdd10 [llmFind99] llmFind99 (by decide) (by decide) (by decide)
      (by decide) (by decide) (by decide)

/-! ### Claims C6 (LLM response parsing) and C9 (category inference) -/

/-- C6 counterexample: the response `[{}]` is a JSON array whose object has
none of the required fields, yet `_parse_response` yields one finding built
from the `dict.get` defaults, not zero; and for `[good, bad]` (second item's
severity invalid) the one finding parsed before the failure is returned, not
zero. -/
theorem C6_parse_response_counterexample :
    parse_response (some (.arr [.obj []])) "a.py" = [llmDefaultFinding]
    ∧ parse_response (some (.arr [.obj []])) "a.py" ≠ []
    ∧ parse_response (some (.arr [llmGoodItem, llmBadItem])) "a.py" = [llmGoodFinding]
    ∧ parse_response (some (.arr [llmGoodItem, llmBadItem])) "a.py" ≠ [] := by
  refine ⟨by decide, by decide, by decide, by decide⟩

/-- C6 (amended): an invalid-JSON response or a JSON value that is not an
array yields zero findings; an array is converted item by item in order — an
object item missing fields is filled from defaults (so a malformed
array-of-objects can still yield findings), and the first item whose
conversion raises ends the loop with the findings accumulated so far
returned.  The failure is per-file non-fatal: a file whose LLM call or parse
fails contributes nothing and the stage continues with the remaining
files. -/
theorem C6_parse_response_amended :
    (∀ p : String, parse_response none p = [])
    ∧ (∀ (p : String) (v : JValue), (∀ items : List JValue, v ≠ .arr items) →
        parse_response (some v) p = [])
    ∧ (∀ (p : String) (item : JValue) (rest : List JValue) (f : Finding),
        mkLlmFinding p item = .ok f →
        parseLlmItems p (item :: rest) = f :: parseLlmItems p rest)
    ∧ (∀ (p : String) (item : JValue) (rest : List JValue),
        mkLlmFinding p item = .error () →
        parseLlmItems p (item :: rest) = [])
    ∧ (∀ (llm : FileDiff → List Finding → Except String (List Finding))
        (d : FileDiff) (rest : List FileDiff) (staticF : List Finding) (msg : String),
        (d.change_type == 'D') = false →
        (blankContent d.new_content && d.added_lines.isEmpty) = false →
        llm d (fileContext staticF d) = .error msg →
        (review_diff llm (d :: rest) staticF).1 = (review_diff llm rest staticF).1) := by
  refine ⟨fun p => rfl, ?_, ?_, ?_, ?_⟩
  · intro p v h
    cases v with
    | arr items => exact absurd rfl (h items)
    | null => rfl
    | bool b => rfl
    | num n => rfl
    | str s => rfl
    | obj fields => rfl
  · intro p item rest f h
    simp [parseLlmItems, h]
  · intro p item rest h
    simp [parseLlmItems, h]
  · intro llm d rest staticF msg hdel hskip hllm
    simp only [review_diff]
    rw [if_neg (by simp [hdel]), if_neg (by simp [hskip]), hllm]

/-- Witness for C6 (amended) at concrete responses and a concrete failing
per-file LLM call. -/
theorem C6_parse_response_amended_witness :
    parse_response none "a.py" = []
    ∧ parse_response (some (.str "no list")) "a.py" = []
    ∧ parseLlmItems "a.py" [llmGoodItem] = llmGoodFinding :: parseLlmItems "a.py" []
    ∧ parseLlmItems "a.py" [llmBadItem, llmGoodItem] = []
    ∧ (review_diff (fun _ _ => .error "api down") [dAdd10] []).1 =
        (review_diff (fun _ _ => .error "api down") ([] : List FileDiff) []).1 := by
  refine ⟨C6_parse_response_amended.1 "a.py", ?_, ?_, ?_, ?_⟩
  · exact C6_parse_response_amended.2.1 "a.py" (.str "no list")
      (fun items h => JValue.noConfusion h)
  · exact C6_parse_response_amended.2.2.1 "a.py" llmGoodItem [] llmGoodFinding
      (by decide)
  · exact C6_parse_response_amended.2.2.2.1 "a.py" llmBadItem [llmGoodItem]
      (by decide)
  · exact C6_parse_response_amended.2.2.2.2 (fun _ _ => .error "api down")
      dAdd10 [] [] "api down" (by decide) (by decide) rfl

/-- C9: `infer_category` applies its rules in the fixed order security
tools, security keywords, performance keywords, style keywords, bug
keywords, other — proved as equality with the spec-side first-match
definition `inferCategorySpec`; findings from semgrep or bandit are always
`security` whatever the text; the result depends on rule id and message only
through their lowercase forms (case-insensitive matching); and a message
with both a performance keyword and a bug keyword is `performance`. -/
theorem C9_infer_category :
    (∀ rule_id message : String,
      infer_category rule_id "semgrep" message = .security
      ∧ infer_category rule_id "bandit" message = .security)
    ∧ (∀ rule_id tool_name message : String,
        infer_category rule_id tool_name message =
          inferCategorySpec rule_id tool_name message)
    ∧ (∀ r1 r2 t m1 m2 : String, pyLower r1 = pyLower r2 → pyLower m1 = pyLower m2 →
        infer_category r1 t m1 = infer_category r2 t m2)
    ∧ infer_category "x" "other-tool" "slow loop may crash" = .performance := by
  refine ⟨?_, ?_, ?_, by decide⟩
  · intro r m
    constructor <;> simp [infer_category]
  · intro r t m
    simp only [infer_category, inferCategorySpec]
    by_cases hs : t = "semgrep"
    · subst hs; simp
    · by_cases hb : t = "bandit"
      · subst hb; simp
      · have h1 : (t == "semgrep") = false := by simp [hs]
        have h2 : (t == "bandit") = false := by simp [hb]
        simp [h1, h2, hs, hb]
  · intro r1 r2 t m1 m2 h1 h2
    simp only [infer_category, h1, h2]

/-- Witness for C9 at concrete inputs, including case-insensitivity between
`AUTH-1`/`Msg` and `auth-1`/`msg`. -/
theorem C9_infer_category_witness :
    infer_category "x" "semgrep" "m" = .security
    ∧ infer_category "se" "t" "msg" = inferCategorySpec "se" "t" "msg"
    ∧ infer_category "AUTH-1" "t" "Msg" = infer_category "auth-1" "t" "msg" := by
  refine ⟨?_, ?_, ?_⟩
  · exact (C9_infer_category.1 "x" "m").1
  · exact C9_infer_category.2.1 "se" "t" "msg"
  · exact C9_infer_category.2.2.1 "AUTH-1" "auth-1" "t" "Msg" "msg"
      (by decide) (by decide)

/-! ### Claim C5 (job error path) -/

theorem data_append_ne_nil_left (a b : String) (ha : a.data ≠ []) :
    (a ++ b).data ≠ [] := by
  rw [String.data_append]
  intro h
  exact ha (List.append_eq_nil.mp h).1

theorem append_ne_empty_of_left (pre rest : String) (hpre : pre.data ≠ []) :
    pre ++ rest ≠ "" := by
  intro h
  exact data_append_ne_nil_left pre rest hpre (congrArg String.data h)

/-- C5: a job whose working-copy acquisition fails — the clone raises, or
the clone succeeds and the checkout raises — persists exactly two records,
a `running` one then a terminal `error` one carrying a non-empty message and
the completion timestamp; no persisted record is ever in state `done`, the
terminal record is the last one persisted, and the exception is re-raised to
the invoking scheduler (`.error` outcome). -/
theorem C5_job_error_path :
    ∀ (job_id repo base_sha head_sha : String) (pr : Option Int)
      (gitClone : Except String String) (gitCheckout : Except String Unit)
      (parsedDiffs : Except String (List FileDiff))
      (engineFindings : List FileDiff → List Finding)
      (postCheckRun postPrComment : Except String Unit) (t0 t1 : Nat) (e : String),
      (gitClone = .error e ∨ (∃ pth, gitClone = .ok pth ∧ gitCheckout = .error e)) →
      ∃ msg : String,
        (process_review_job job_id repo base_sha head_sha pr gitClone gitCheckout
            parsedDiffs engineFindings postCheckRun postPrComment t0 t1).2 =
          .error msg
        ∧ msg ≠ ""
        ∧ (process_review_job job_id repo base_sha head_sha pr gitClone gitCheckout
            parsedDiffs engineFindings postCheckRun postPrComment t0 t1).1.map
            JobRecord.state = [.running, .error]
        ∧ JobState.done ∉
            (process_review_job job_id repo base_sha head_sha pr gitClone gitCheckout
              parsedDiffs engineFindings postCheckRun postPrComment t0 t1).1.map
              JobRecord.state
        ∧ ∃ last : JobRecord,
            (process_review_job job_id repo base_sha head_sha pr gitClone gitCheckout
              parsedDiffs engineFindings postCheckRun postPrComment t0 t1).1.getLast? =
              some last
            ∧ last.state = .error ∧ last.error = some msg
            ∧ last.completed_at = some t1 := by
  intro job_id repo base_sha head_sha pr gitClone gitCheckout parsedDiffs
    engineFindings postCheckRun postPrComment t0 t1 e h
  have hnotdone : JobState.done ∉ ([JobState.running, JobState.error] : List JobState) := by
    decide
  rcases h with h | ⟨pth, hok, hco⟩
  · subst h
    exact ⟨"Failed to clone repository: " ++ e, rfl,
      append_ne_empty_of_left _ _ (by decide), rfl, hnotdone,
      ⟨_, rfl, rfl, rfl, rfl⟩⟩
  · subst hok
    subst hco
    exact ⟨"Failed to checkout commit " ++ head_sha ++ ": " ++ e, rfl,
      append_ne_empty_of_left _ _
        (data_append_ne_nil_left _ _ (data_append_ne_nil_left _ _ (by decide))),
      rfl, hnotdone, ⟨_, rfl, rfl, rfl, rfl⟩⟩

/-- Witness for C5: a concrete job whose clone fails with `conn reset`. -/
theorem C5_job_error_path_witness :
    ∃ msg : String,
      (process_review_job "j1" "octo/repo" "b1" "h1" none (.error "conn reset")
          (.ok ()) (.ok []) (fun _ => []) (.ok ()) (.ok ()) 100 200).2 = .error msg
      ∧ msg ≠ ""
      ∧ (process_review_job "j1" "octo/repo" "b1" "h1" none (.error "conn reset")
          (.ok ()) (.ok []) (fun _ => []) (.ok ()) (.ok ()) 100 200).1.map
          JobRecord.state = [.running, .error]
      ∧ JobState.done ∉
          (process_review_job "j1" "octo/repo" "b1" "h1" none (.error "conn reset")
            (.ok ()) (.ok []) (fun _ => []) (.ok ()) (.ok ()) 100 200).1.map
            JobRecord.state
      ∧ ∃ last : JobRecord,
          (process_review_job "j1" "octo/repo" "b1" "h1" none (.error "conn reset")
            (.ok ()) (.ok []) (fun _ => []) (.ok ()) (.ok ()) 100 200).1.getLast? =
            some last
          ∧ last.state = .error ∧ last.error = some msg
          ∧ last.completed_at = some 200 :=
  C5_job_error_path "j1" "octo/repo" "b1" "h1" none (.error "conn reset") (.ok ())
    (.ok []) (fun _ => []) (.ok ()) (.ok ()) 100 200 "conn reset" (.inl rfl)

/-! ### MD5 digest-prefix lemmas and claim C8 -/

/-- Cross-check of the MD5 model against a reference digest
(`hashlib.md5(b"a.py:10:E501").hexdigest()`). -/
theorem md5_reference_digest :
    String.mk (md5HexChars (strBytes "a.py:10:E501")) =
      "3a6b53eca829db9a9b7f4051ff97f346" := by decide

theorem md5Chunk_bound (st : Nat × Nat × Nat × Nat) (chunk : List Nat) :
    (md5Chunk st chunk).1 < 4294967296 ∧ (md5Chunk st chunk).2.1 < 4294967296 := by
  exact ⟨Nat.mod_lt _ (by norm_num), Nat.mod_lt _ (by norm_num)⟩

theorem foldl_md5Chunk_bound :
    ∀ (cs : List (List Nat)) (init : Nat × Nat × Nat × Nat),
      init.1 < 4294967296 → init.2.1 < 4294967296 →
      (cs.foldl md5Chunk init).1 < 4294967296 ∧
        (cs.foldl md5Chunk init).2.1 < 4294967296 := by
  intro cs
  induction cs with
  | nil => intro init h1 h2; exact ⟨h1, h2⟩
  | cons c rest ih =>
      intro init h1 h2
      simp only [List.foldl_cons]
      exact ih (md5Chunk init c) (md5Chunk_bound init c).1 (md5Chunk_bound init c).2

theorem md5Words_bound (msg : List Nat) :
    (md5Words msg).1 < 4294967296 ∧ (md5Words msg).2.1 < 4294967296 := by
  unfold md5Words
  exact foldl_md5Chunk_bound _ _ (by norm_num) (by norm_num)

theorem md5HexChars_take12 (msg : List Nat) :
    (md5HexChars msg).take 12 =
      (toBytesLE 4 (md5Words msg).1).foldr (fun x acc => byteHex x ++ acc) [] ++
        (byteHex ((md5Words msg).2.1 / 1 % 256) ++
          byteHex ((md5Words msg).2.1 / 256 % 256)) := rfl

theorem finding_idChars_eq (f : Finding) :
    finding_idChars f =
      idPrefix (md5Words (strBytes (idString f))).1
        ((md5Words (strBytes (idString f))).2.1 % 65536) := by
  have h := md5HexChars_take12 (strBytes (idString f))
  unfold finding_idChars idPrefix
  rw [h]
  have h1 : (md5Words (strBytes (idString f))).2.1 / 1 % 256 =
      (md5Words (strBytes (idString f))).2.1 % 65536 % 256 := by
    rw [Nat.div_one, Nat.mod_mod_of_dvd _ (by norm_num : (256 : ℕ) ∣ 65536)]
  have h2 : (md5Words (strBytes (idString f))).2.1 / 256 % 256 =
      (md5Words (strBytes (idString f))).2.1 % 65536 / 256 := by
    have hm := Nat.mod_mul_right_div_self (md5Words (strBytes (idString f))).2.1 256 256
    rw [show (256 * 256 : ℕ) = 65536 by norm_num] at hm
    exact hm.symm
  rw [h1, h2]

theorem colon_split :
    ∀ (l1 r1 l2 r2 : List Char), ':' ∉ l1 → ':' ∉ l2 →
      l1 ++ ':' :: r1 = l2 ++ ':' :: r2 → l1 = l2 ∧ r1 = r2 := by
  intro l1
  induction l1 with
  | nil =>
      intro r1 l2 r2 _ h2 heq
      cases l2 with
      | nil => simpa using heq
      | cons y ys =>
          simp only [List.nil_append, List.cons_append, List.cons.injEq] at heq
          exact absurd (heq.1 ▸ List.mem_cons_self y ys) (heq.1 ▸ h2)
  | cons x xs ih =>
      intro r1 l2 r2 h1 h2 heq
      cases l2 with
      | nil =>
          simp only [List.cons_append, List.nil_append, List.cons.injEq] at heq
          exact absurd (heq.1 ▸ List.mem_cons_self x xs) (by
            rw [heq.1] at h1
            exact fun hm => h1 (List.mem_cons_self ':' xs))
      | cons y ys =>
          simp only [List.cons_append, List.cons.injEq] at heq
          obtain ⟨hxy, hrest⟩ := heq
          have h1' : ':' ∉ xs := fun hm => h1 (List.mem_cons_of_mem x hm)
          have h2' : ':' ∉ ys := fun hm => h2 (List.mem_cons_of_mem y hm)
          obtain ⟨he1, he2⟩ := ih r1 ys r2 h1' h2' hrest
          exact ⟨by rw [hxy, he1], he2⟩

theorem intStr_no_colon (i : Int) : ':' ∉ (intStr i).data := by
  unfold intStr
  by_cases h : i < 0
  · rw [if_pos h]
    intro hmem
    rcases List.mem_cons.mp hmem with hc | hc
    · exact absurd hc (by decide)
    · exact absurd (natDigits_mem _ _ hc) (by decide)
  · rw [if_neg h]
    intro hmem
    exact absurd (natDigits_mem _ _ hmem) (by decide)

theorem intStr_injective {i j : Int} (h : intStr i = intStr j) : i = j := by
  unfold intStr at h
  by_cases hi : i < 0 <;> by_cases hj : j < 0
  · rw [if_pos hi, if_pos hj] at h
    injection h with h'
    injection h' with _ h''
    have := natDigits_injective h''
    omega
  · rw [if_pos hi, if_neg hj] at h
    injection h with h'
    obtain ⟨c, cs, hcr⟩ := List.exists_cons_of_ne_nil (natDigits_ne_nil j.toNat)
    rw [hcr] at h'
    injection h' with hc _
    have : c ∈ digitChars := natDigits_mem _ c (by rw [hcr]; simp)
    rw [← hc] at this
    exact absurd this (by decide)
  · rw [if_neg hi, if_pos hj] at h
    injection h with h'
    obtain ⟨c, cs, hcr⟩ := List.exists_cons_of_ne_nil (natDigits_ne_nil i.toNat)
    rw [hcr] at h'
    injection h' with hc _
    have : c ∈ digitChars := natDigits_mem _ c (by rw [hcr]; simp)
    rw [hc] at this
    exact absurd this (by decide)
  · rw [if_neg hi, if_neg hj] at h
    injection h with h'
    have := natDigits_injective h'
    omega

theorem idString_data (f : Finding) :
    (idString f).data =
      f.file_path.data ++ ':' :: ((intStr f.line).data ++ ':' :: f.rule_id.data) := by
  simp [idString, String.data_append]

theorem idString_inj_line_rule {f1 f2 : Finding}
    (hfile : f1.file_path = f2.file_path) (h : idString f1 = idString f2) :
    f1.line = f2.line ∧ f1.rule_id = f2.rule_id := by
  have hd := congrArg String.data h
  rw [idString_data, idString_data, hfile] at hd
  have hd2 := List.append_cancel_left hd
  injection hd2 with _ hd3
  obtain ⟨hline, hrule⟩ :=
    colon_split _ _ _ _ (intStr_no_colon f1.line) (intStr_no_colon f2.line) hd3
  constructor
  · exact intStr_injective (String.ext hline)
  · exact String.ext hrule

/-- C8 counterexample: the id is only 48 bits of digest, so over the
infinitely many rule ids (file and line held fixed) two distinct rule ids
must share an id — "changing the rule id changes the id" is false in
general.  Proved by pigeonhole on the id-determining data, via
`finding_idChars_eq`. -/
theorem C8_id_collision_counterexample :
    ¬ (∀ f1 f2 : Finding, f1.file_path = f2.file_path → f1.line = f2.line →
        f1.rule_id ≠ f2.rule_id → finding_id f1 ≠ finding_id f2) := by
  intro h
  obtain ⟨x, y, hxy, hG⟩ :=
    Finite.exists_ne_map_eq_of_infinite
      (fun n : ℕ =>
        ((⟨(md5Words (strBytes (idString (ruleFinding n)))).1,
            (md5Words_bound _).1⟩ : Fin 4294967296),
         (⟨(md5Words (strBytes (idString (ruleFinding n)))).2.1 % 65536,
            Nat.mod_lt _ (by norm_num)⟩ : Fin 65536)))
  have h1 : (md5Words (strBytes (idString (ruleFinding x)))).1 =
      (md5Words (strBytes (idString (ruleFinding y)))).1 :=
    congrArg (fun p => p.1.val) hG
  have h2 : (md5Words (strBytes (idString (ruleFinding x)))).2.1 % 65536 =
      (md5Words (strBytes (idString (ruleFinding y)))).2.1 % 65536 :=
    congrArg (fun p => p.2.val) hG
  have hid : finding_id (ruleFinding x) = finding_id (ruleFinding y) := by
    unfold finding_id
    rw [finding_idChars_eq, finding_idChars_eq, h1, h2]
  have hrule : (ruleFinding x).rule_id ≠ (ruleFinding y).rule_id := by
    intro he
    apply hxy
    have he2 : List.replicate x 'r' = List.replicate y 'r' := by
      have : String.mk (List.replicate x 'r') = String.mk (List.replicate y 'r') := he
      injection this
    have := congrArg List.length he2
    simpa using this
  exact h (ruleFinding x) (ruleFinding y) rfl rfl hrule hid

/-- C8 (amended): `normalize` is deterministic — the id depends only on the
(file, line, rule id) triple, and equals the first 12 hex characters of the
MD5 digest of `"<file>:<line>:<rule_id>"`; changing the line or the rule id
while holding the file fixed always changes the digest-input string (it is
injective in (line, rule id) for a fixed file), and it does change the id at
the concrete findings below — but, by `C8`'s counterexample, the truncated
digest cannot separate every such change. -/
theorem C8_normalize_id_amended :
    (∀ (f1 f2 : Finding) (s1 s2 : Source),
      f1.file_path = f2.file_path → f1.line = f2.line → f1.rule_id = f2.rule_id →
      (finding_to_normalized f1 s1).id = (finding_to_normalized f2 s2).id)
    ∧ (∀ (f : Finding) (s : Source), (finding_to_normalized f s).id = finding_id f)
    ∧ (∀ f1 f2 : Finding, f1.file_path = f2.file_path → idString f1 = idString f2 →
        f1.line = f2.line ∧ f1.rule_id = f2.rule_id)
    ∧ idString exA = "a.py:10:E501"
    ∧ finding_id exA = "3a6b53eca829"
    ∧ finding_id exA ≠ finding_id exALine
    ∧ finding_id exA ≠ finding_id exARule := by
  refine ⟨?_, fun f s => rfl, fun f1 f2 => idString_inj_line_rule, by decide, by decide,
    by decide, by decide⟩
  intro f1 f2 s1 s2 hfile hline hrule
  have hids : idString f1 = idString f2 := by
    unfold idString
    rw [hfile, hline, hrule]
  show finding_id f1 = finding_id f2
  unfold finding_id finding_idChars
  rw [hids]

/-- Witness for C8 (amended): determinism and digest-input injectivity
applied at the concrete finding `exA`. -/
theorem C8_normalize_id_amended_witness :
    (finding_to_normalized exA .static).id = (finding_to_normalized exA .llm).id
    ∧ (exA.line = exA.line ∧ exA.rule_id = exA.rule_id) :=
  ⟨C8_normalize_id_amended.1 exA exA .static .llm rfl rfl rfl,
   C8_normalize_id_amended.2.2.1 exA exA rfl rfl⟩
